import Mathlib

/-!
# The Synacor challenge virtual machine (nlowe/synacor-challenge)

A shallow embedding of the Go packages `synacor/instruction` (opcodes.go) and
`synacor` (cpu.go, microcode.go), followed by theorems about the embedded code.

Conventions of the embedding:

* a Go `uint16` is a `Nat`; every place where Go's 16-bit arithmetic can wrap
  carries an explicit `% 65536`;
* the Go arrays `memory [1 << 15]uint16` and `registers [8]uint16` are functions
  `Nat → Nat`; every index into `memory` is bounds-checked explicitly, as the Go
  runtime does, and an index of 32768 or more is the run-time fault
  `indexOutOfRange`; register indices are `addr & 0b111` and are always in range;
* a Go panic is the constructor `Result.fault`, which also records the machine
  state at the moment of the panic;
* the `select` statement of OUT and IN (send or receive, context cancelled,
  watchdog expired) is resolved by a `Rendezvous` value supplied from outside;
* `debugState` only formats text for the optional `Debug` writer and has no
  effect on the machine, so it is left out.
-/

namespace instruction

def HALT : Nat := 0
def SET : Nat := 1
def PUSH : Nat := 2
def POP : Nat := 3
def EQ : Nat := 4
def GT : Nat := 5
def JMP : Nat := 6
def JT : Nat := 7
def JF : Nat := 8
def ADD : Nat := 9
def MULT : Nat := 10
def MOD : Nat := 11
def AND : Nat := 12
def OR : Nat := 13
def NOT : Nat := 14
def RMEM : Nat := 15
def WMEM : Nat := 16
def CALL : Nat := 17
def RET : Nat := 18
def OUT : Nat := 19
def IN : Nat := 20
def NOOP : Nat := 21

/-- ArgCount (opcodes.go): the map literal from opcode to operand count; `none`
is the panic "unknown instruction" raised when the key is absent. -/
def ArgCount (instr : Nat) : Option Nat :=
  match instr with
  | 0 => some 0   -- HALT
  | 1 => some 2   -- SET
  | 2 => some 1   -- PUSH
  | 3 => some 1   -- POP
  | 4 => some 3   -- EQ
  | 5 => some 3   -- GT
  | 6 => some 1   -- JMP
  | 7 => some 2   -- JT
  | 8 => some 2   -- JF
  | 9 => some 3   -- ADD
  | 10 => some 3  -- MULT
  | 11 => some 3  -- MOD
  | 12 => some 3  -- AND
  | 13 => some 3  -- OR
  | 14 => some 2  -- NOT
  | 15 => some 2  -- RMEM
  | 16 => some 2  -- WMEM
  | 17 => some 1  -- CALL
  | 18 => some 1  -- RET
  | 19 => some 1  -- OUT
  | 20 => some 1  -- IN
  | 21 => some 0  -- NOOP
  | _ => none

end instruction

namespace synacor

def registerMask : Nat := 0b111
def registerIndicator : Nat := 0b1000000000000

/-- The mod base that all arithmetic operations operate in (microcode.go). -/
def base : Nat := 32768

/-- Length of the Go array `memory [1 << 15]uint16`. -/
def memSize : Nat := 1 <<< 15

/-- IsRegister (cpu.go): `uint8(addr & registerMask), (addr >> 3) == registerIndicator`. -/
def IsRegister (addr : Nat) : Nat × Bool :=
  ((addr &&& registerMask) % 256, (addr >>> 3) == registerIndicator)

/-- The run-time panics of the package. -/
inductive Fault where
  | stackUnderflow
  | unknownOpcode (op : Nat)
  | unknownInstruction (instr : Nat)
  | indexOutOfRange
  | divideByZero
  | sendOnClosedChannel
  | blockedOnWrite
  | blockedOnRead
  deriving DecidableEq, Repr

/-- The fields of the Go struct `CPU` that instructions act on. `output` is the
sequence of runes delivered on `out`, `outClosed` records `close(c.out)`, and
`cancelled` records that `c.halt()` cancelled the context. -/
structure CPU where
  memory : Nat → Nat
  registers : Nat → Nat
  stack : List Nat
  pc : Nat
  output : List Nat
  outClosed : Bool
  cancelled : Bool
  halted : Bool

/-- Outcome of a piece of Go code: a normal return with a value, or a panic;
both carry the machine state they leave behind. -/
inductive Result (α : Type) where
  | ok (val : α) (cpu : CPU)
  | fault (f : Fault) (cpu : CPU)

/-- The machine a result carries, whether it is a return or a panic. -/
def Result.cpu {α : Type} : Result α → CPU
  | .ok _ c => c
  | .fault _ c => c

/-- Sequencing: a panic in the first computation skips the rest. -/
def Result.bind {α β : Type} (r : Result α) (k : α → CPU → Result β) : Result β :=
  match r with
  | .ok v c => k v c
  | .fault f c => .fault f c

/-- How the `select` of an OUT or IN instruction is resolved: the channel
operation completes (for IN, `v` is the rune received), the context is done, or
the watchdog timer fires first. -/
inductive Rendezvous where
  | completed (v : Int)
  | cancelled
  | timedOut

/-- registerOrLiteral (cpu.go). -/
def registerOrLiteral (c : CPU) (v : Nat) : Nat :=
  match IsRegister v with
  | (reg, true) => c.registers reg
  | (_, false) => v

/-- write (cpu.go): a register store, or `c.memory[addr] = value` with the
bounds check of the Go runtime. -/
def write (c : CPU) (addr value : Nat) : Result Unit :=
  match IsRegister addr with
  | (reg, true) =>
    .ok () { c with registers := fun r => if r = reg then value else c.registers r }
  | (_, false) =>
    if addr < memSize then
      .ok () { c with memory := fun i => if i = addr then value else c.memory i }
    else .fault .indexOutOfRange c

/-- popstack (cpu.go): `tail := len(c.stack) - 1`, panic when negative, otherwise
return `c.stack[tail]` and truncate to `c.stack[:tail]`. -/
def popstack (c : CPU) : Result Nat :=
  let tail : Int := (c.stack.length : Int) - 1
  if tail < 0 then .fault .stackUnderflow c
  else .ok (c.stack.getD tail.toNat 0) { c with stack := c.stack.take tail.toNat }

/-- shutdown (cpu.go): close the output unless already halted, set `halted`,
cancel the context. The output channel is closed nowhere else, and only while
`halted` is still false, so the close itself cannot panic. -/
def shutdown (c : CPU) : CPU :=
  let c1 := if !c.halted then { c with outClosed := true } else c
  { c1 with halted := true, cancelled := true }

/-- The return expression `1 + instruction.ArgCount(op)` of a handler, in
16-bit arithmetic; ArgCount panics on a key that is not in its map. -/
def advance (instr : Nat) (c : CPU) : Result Nat :=
  match instruction.ArgCount instr with
  | some n => .ok ((1 + n) % 65536) c
  | none => .fault (.unknownInstruction instr) c

/-! ## The microcode table (microcode.go) -/

def opHALT (cpu : CPU) (_a _b _c : Nat) : Result Nat :=
  .ok 0 (shutdown cpu)

def opSET (cpu : CPU) (a b _c : Nat) : Result Nat :=
  (write cpu a (registerOrLiteral cpu b)).bind fun _ cpu1 =>
    advance instruction.SET cpu1

def opPUSH (cpu : CPU) (a _b _c : Nat) : Result Nat :=
  advance instruction.PUSH { cpu with stack := cpu.stack ++ [registerOrLiteral cpu a] }

def opPOP (cpu : CPU) (a _b _c : Nat) : Result Nat :=
  (popstack cpu).bind fun v cpu1 =>
    (write cpu1 a v).bind fun _ cpu2 =>
      advance instruction.POP cpu2

def opEQ (cpu : CPU) (a b c : Nat) : Result Nat :=
  let result : Nat := if registerOrLiteral cpu b = registerOrLiteral cpu c then 1 else 0
  (write cpu a result).bind fun _ cpu1 =>
    advance instruction.EQ cpu1

def opGT (cpu : CPU) (a b c : Nat) : Result Nat :=
  let result : Nat := if registerOrLiteral cpu b > registerOrLiteral cpu c then 1 else 0
  (write cpu a result).bind fun _ cpu1 =>
    advance instruction.GT cpu1

def opJMP (cpu : CPU) (a _b _c : Nat) : Result Nat :=
  .ok 0 { cpu with pc := registerOrLiteral cpu a }

def opJT (cpu : CPU) (a b _c : Nat) : Result Nat :=
  if registerOrLiteral cpu a ≠ 0 then
    .ok 0 { cpu with pc := registerOrLiteral cpu b }
  else advance instruction.JT cpu

def opJF (cpu : CPU) (a b _c : Nat) : Result Nat :=
  if registerOrLiteral cpu a = 0 then
    .ok 0 { cpu with pc := registerOrLiteral cpu b }
  else advance instruction.JF cpu

def opADD (cpu : CPU) (a b c : Nat) : Result Nat :=
  (write cpu a (((registerOrLiteral cpu b + registerOrLiteral cpu c) % 65536) % base)).bind
    fun _ cpu1 => advance instruction.ADD cpu1

def opMULT (cpu : CPU) (a b c : Nat) : Result Nat :=
  (write cpu a (((registerOrLiteral cpu b * registerOrLiteral cpu c) % 65536) % base)).bind
    fun _ cpu1 => advance instruction.MULT cpu1

/-- MOD: Go's `%` on integers panics with "integer divide by zero" when the
divisor is zero; the operands are evaluated before `write` is called. -/
def opMOD (cpu : CPU) (a b c : Nat) : Result Nat :=
  if registerOrLiteral cpu c = 0 then .fault .divideByZero cpu
  else
    (write cpu a (registerOrLiteral cpu b % registerOrLiteral cpu c)).bind
      fun _ cpu1 => advance instruction.MOD cpu1

def opAND (cpu : CPU) (a b c : Nat) : Result Nat :=
  (write cpu a (registerOrLiteral cpu b &&& registerOrLiteral cpu c)).bind
    fun _ cpu1 => advance instruction.AND cpu1

def opOR (cpu : CPU) (a b c : Nat) : Result Nat :=
  (write cpu a (registerOrLiteral cpu b ||| registerOrLiteral cpu c)).bind
    fun _ cpu1 => advance instruction.OR cpu1

/-- NOT: `(^x) & 0x7FFF`, where `^x` on a uint16 flips all sixteen bits. -/
def opNOT (cpu : CPU) (a b _c : Nat) : Result Nat :=
  (write cpu a (((registerOrLiteral cpu b ^^^ 0xFFFF) % 65536) &&& 0x7FFF)).bind
    fun _ cpu1 => advance instruction.NOT cpu1

def opRMEM (cpu : CPU) (a b _c : Nat) : Result Nat :=
  let b1 : Nat :=
    match IsRegister b with
    | (reg, true) => cpu.registers reg
    | (_, false) => b
  if b1 < memSize then
    (write cpu a (cpu.memory b1)).bind fun _ cpu1 => advance instruction.RMEM cpu1
  else .fault .indexOutOfRange cpu

def opWMEM (cpu : CPU) (a b _c : Nat) : Result Nat :=
  let addr := registerOrLiteral cpu a
  let value := registerOrLiteral cpu b
  if addr < memSize then
    advance instruction.WMEM
      { cpu with memory := fun i => if i = addr then value else cpu.memory i }
  else .fault .indexOutOfRange cpu

def opCALL (cpu : CPU) (a _b _c : Nat) : Result Nat :=
  let cpu1 := { cpu with stack := cpu.stack ++ [(cpu.pc + 2) % 65536] }
  .ok 0 { cpu1 with pc := registerOrLiteral cpu1 a }

def opRET (cpu : CPU) (_a _b _c : Nat) : Result Nat :=
  if cpu.stack.length = 0 then .ok 0 (shutdown cpu)
  else (popstack cpu).bind fun v cpu1 => .ok 0 { cpu1 with pc := v }

/-- OUT: the three-way `select`. A send that goes through appends the rune to
the delivered output; a send on a closed channel panics. -/
def opOUT (ev : Rendezvous) (cpu : CPU) (a _b _c : Nat) : Result Nat :=
  match ev with
  | .completed _ =>
    if cpu.outClosed then .fault .sendOnClosedChannel cpu
    else advance instruction.OUT { cpu with output := cpu.output ++ [registerOrLiteral cpu a] }
  | .cancelled => .ok 0 cpu
  | .timedOut => .fault .blockedOnWrite cpu

/-- IN: the three-way `select`; the rune received is converted with `uint16(v)`. -/
def opIN (ev : Rendezvous) (cpu : CPU) (a _b _c : Nat) : Result Nat :=
  match ev with
  | .completed v =>
    (write cpu a (v % 65536).toNat).bind fun _ cpu1 => advance instruction.IN cpu1
  | .cancelled => .ok 0 cpu
  | .timedOut => .fault .blockedOnRead cpu

def opNOOP (cpu : CPU) (_a _b _c : Nat) : Result Nat :=
  advance instruction.NOOP cpu

/-- The map `microcode` from opcode to handler; `none` is an absent key. -/
def microcode (ev : Rendezvous) (op : Nat) : Option (CPU → Nat → Nat → Nat → Result Nat) :=
  match op with
  | 0 => some opHALT
  | 1 => some opSET
  | 2 => some opPUSH
  | 3 => some opPOP
  | 4 => some opEQ
  | 5 => some opGT
  | 6 => some opJMP
  | 7 => some opJT
  | 8 => some opJF
  | 9 => some opADD
  | 10 => some opMULT
  | 11 => some opMOD
  | 12 => some opAND
  | 13 => some opOR
  | 14 => some opNOT
  | 15 => some opRMEM
  | 16 => some opWMEM
  | 17 => some opCALL
  | 18 => some opRET
  | 19 => some (opOUT ev)
  | 20 => some (opIN ev)
  | 21 => some opNOOP
  | _ => none

/-- Step (cpu.go): fetch the opcode at `pc`, look the handler up, fetch the three
following words as raw operands (indices computed in uint16, each bounds-checked
against the memory array), run the handler, then execute `c.pc += delta`.
The handler runs before `c.pc` is read for the addition, so a handler that
assigns `pc` and returns 0 ("Don't increment PC") leaves exactly its own value. -/
def Step (ev : Rendezvous) (c : CPU) : Result Unit :=
  if c.pc < memSize then
    let op := c.memory c.pc
    match microcode ev op with
    | none => .fault (.unknownOpcode op) c
    | some impl =>
      let i1 := (c.pc + 1) % 65536
      let i2 := (c.pc + 2) % 65536
      let i3 := (c.pc + 3) % 65536
      if i1 < memSize ∧ i2 < memSize ∧ i3 < memSize then
        (impl c (c.memory i1) (c.memory i2) (c.memory i3)).bind fun delta c1 =>
          .ok () { c1 with pc := (c1.pc + delta) % 65536 }
      else .fault .indexOutOfRange c
  else .fault .indexOutOfRange c

/-- How a bounded run of the dispatch loop ends. -/
inductive RunResult where
  | returned (c : CPU)
  | panicked (f : Fault) (c : CPU)
  | outOfFuel (c : CPU)

/-- Run (cpu.go): `for !c.halted { c.Step() }`, with a bound on the number of
loop iterations; `env` resolves the rendezvous of an OUT or IN executed in the
given state. -/
def Run (env : CPU → Rendezvous) : Nat → CPU → RunResult
  | 0, c => if c.halted then .returned c else .outOfFuel c
  | fuel + 1, c =>
    if c.halted then .returned c
    else
      match Step (env c) c with
      | .ok _ c1 => Run env fuel c1
      | .fault f c1 => .panicked f c1

/-- Every cell of the machine holds a 16-bit word, as the Go type `uint16`
guarantees. -/
def WordState (c : CPU) : Prop :=
  (∀ i, c.memory i < 65536) ∧ (∀ r, c.registers r < 65536) ∧
    (∀ v ∈ c.stack, v < 65536) ∧ c.pc < 65536


/-! ## Concrete machines used as test inputs -/

/-- Memory image holding the listed words from address 0 on, zero elsewhere. -/
def memOf (l : List Nat) : Nat → Nat := fun i => l.getD i 0

/-- A freshly created machine before any word is loaded: zero memory and
registers, empty stack, `pc = 0`, not halted. -/
def blank : CPU :=
  { memory := fun _ => 0, registers := fun _ => 0, stack := [], pc := 0,
    output := [], outClosed := false, cancelled := false, halted := false }

/-- `CALL 4` at address 0 and `RET` at address 4. -/
def callRet : CPU := { blank with memory := memOf [17, 4, 0, 0, 18] }

/-- The machine `callRet` after a shutdown (halted, output closed, context cancelled). -/
def callRetHalted : CPU := shutdown callRet

/-- `RET` at address 0, empty stack. -/
def retOnly : CPU := { blank with memory := memOf [18] }

/-- `POP r0` at address 0, empty stack. -/
def popProg : CPU := { blank with memory := memOf [3, 32768] }

/-- `JMP 100` at address 0. -/
def jmpProg : CPU := { blank with memory := memOf [6, 100] }

/-- `JT 0, 5` at address 0: the condition operand is the literal 0. -/
def jtProg : CPU := { blank with memory := memOf [7, 0, 5] }


/-- Register 1 holds 40000, which is not an index of the memory array. -/
def rmemBad : CPU := { blank with registers := fun r => if r = 1 then 40000 else 0 }

/-- Register 1 holds 100 and memory cell 100 holds 77. -/
def rmemGood : CPU :=
  { blank with memory := fun i => if i = 100 then 77 else 0,
               registers := fun r => if r = 1 then 100 else 0 }

/-- Register 0 holds 100 and register 1 holds 9. -/
def wmemRegs : CPU := { blank with registers := fun r => if r = 0 then 100 else if r = 1 then 9 else 0 }

/-- The word 22, which is no opcode, at address 0. -/
def badOpProg : CPU := { blank with memory := memOf [22] }

/-- `SET r0, 5` at address 0. -/
def setProg : CPU := { blank with memory := memOf [1, 32768, 5] }

/-- The zero word (HALT) in the last memory cell, with `pc` pointing at it. -/
def haltLast : CPU := { blank with pc := 32767 }

/-- `NOOP` in the cell 32765, with `pc` pointing at it. -/
def noopNearEnd : CPU :=
  { blank with memory := fun i => if i = 32765 then 21 else 0, pc := 32765 }

/-! ## The program loader (cpu.go, NewCPUFrom) -/

/-- The errors `binary.Read` hands back on a reader over a finite byte
sequence: `io.EOF` when no byte is left, and `io.ErrUnexpectedEOF` when the
stream ends inside the two-byte word (`io.ReadFull` got one byte of two). -/
inductive ReadError where
  | eof
  | unexpectedEOF
  deriving DecidableEq, Repr

/-- The loop `for err == nil` of NewCPUFrom on a reader holding the given
bytes. Each round is one `binary.Read(r, binary.LittleEndian, &v)`: with two
bytes left it yields `v = uint16(lo) | uint16(hi) << 8`, which is stored at
`c.memory[c.pc]` (bounds-checked by the Go runtime) before `c.pc++`; with fewer
bytes left it yields the error that ends the loop. -/
def loadWords (c : CPU) : List Nat → Result ReadError
  | [] => .ok .eof c
  | [_] => .ok .unexpectedEOF c
  | lo :: hi :: rest =>
    if c.pc < memSize then
      let mem := fun i => if i = c.pc then lo ||| (hi <<< 8) else c.memory i
      loadWords { c with memory := mem, pc := (c.pc + 1) % 65536 } rest
    else .fault .indexOutOfRange c

/-- NewCPUFrom (cpu.go) on a reader holding the given bytes: start from the zero
value of the struct, run the loading loop, turn `io.EOF` into a nil error
(`none`), reset `pc` to 0 and return the machine with the error. The goroutine
that waits for the context to be cancelled is not part of the sequential
model. -/
def NewCPUFrom (r : List Nat) : Result (Option ReadError) :=
  (loadWords blank r).bind fun err c =>
    .ok (if err = .eof then none else some err) { c with pc := 0 }

/-- The program of TestCPU_ExampleProgram: `ADD r0, r1, 4` then `OUT r0`. -/
def exampleBytes : List Nat :=
  [0x09, 0x00, 0x00, 0x80, 0x01, 0x80, 0x04, 0x00, 0x13, 0x00, 0x00, 0x80]


/-! ## Shared lemmas about address classification and stores -/

theorem IsRegister_eq (a : Nat) :
    IsRegister a = (a % 8, decide (32768 ≤ a ∧ a ≤ 32775)) := by
  have h1 : a &&& registerMask = a % 8 := Nat.and_pow_two_sub_one_eq_mod a 3
  have h2 : a >>> 3 = a / 8 := Nat.shiftRight_eq_div_pow a 3
  have h3 : a % 8 % 256 = a % 8 := Nat.mod_eq_of_lt (by omega)
  unfold IsRegister
  rw [h1, h2, h3]
  congr 1
  by_cases h : 32768 ≤ a ∧ a ≤ 32775
  · have : a / 8 = 4096 := by omega
    simp [registerIndicator, this, h]
  · have : a / 8 ≠ 4096 := by omega
    simp [registerIndicator, this, h]

theorem IsRegister_reg (a : Nat) (h1 : 32768 ≤ a) (h2 : a ≤ 32775) :
    IsRegister a = (a - 32768, true) := by
  rw [IsRegister_eq]
  have : a % 8 = a - 32768 := by omega
  simp [this, h1, h2]

theorem IsRegister_not_reg (a : Nat) (h : a < 32768 ∨ 32775 < a) :
    IsRegister a = (a % 8, false) := by
  rw [IsRegister_eq]
  have : ¬ (32768 ≤ a ∧ a ≤ 32775) := by omega
  simp [this]

theorem registerOrLiteral_reg (c : CPU) (a : Nat) (h1 : 32768 ≤ a) (h2 : a ≤ 32775) :
    registerOrLiteral c a = c.registers (a - 32768) := by
  simp [registerOrLiteral, IsRegister_reg a h1 h2]

theorem registerOrLiteral_lit (c : CPU) (a : Nat) (h : a < 32768 ∨ 32775 < a) :
    registerOrLiteral c a = a := by
  simp [registerOrLiteral, IsRegister_not_reg a h]

theorem write_reg (c : CPU) (a v : Nat) (h1 : 32768 ≤ a) (h2 : a ≤ 32775) :
    write c a v =
      .ok () { c with registers := fun r => if r = a - 32768 then v else c.registers r } := by
  simp [write, IsRegister_reg a h1 h2]

theorem write_mem (c : CPU) (a v : Nat) (h : a < 32768) :
    write c a v =
      .ok () { c with memory := fun i => if i = a then v else c.memory i } := by
  simp [write, IsRegister_not_reg a (Or.inl h), memSize, h]

theorem wrap16_mod_base (n : Nat) : n % 65536 % base = n % 32768 := by
  unfold base
  omega

theorem store_mem (s : CPU) (a v instr n : Nat) (h : a < 32768)
    (hn : instruction.ArgCount instr = some n) :
    ((write s a v).bind fun _ cpu1 => advance instr cpu1) =
      .ok ((1 + n) % 65536) { s with memory := fun i => if i = a then v else s.memory i } := by
  simp [write_mem s a v h, Result.bind, advance, hn]

theorem store_reg (s : CPU) (a v instr n : Nat) (h1 : 32768 ≤ a) (h2 : a ≤ 32775)
    (hn : instruction.ArgCount instr = some n) :
    ((write s a v).bind fun _ cpu1 => advance instr cpu1) =
      .ok ((1 + n) % 65536)
        { s with registers := fun r => if r = a - 32768 then v else s.registers r } := by
  simp [write_reg s a v h1 h2, Result.bind, advance, hn]

/-- C1: for a valid destination `a` (a memory address below 32768 or a register
address 32768..32775), ADD returns normally and leaves in `a` exactly
`(B + C) mod 32768`, MULT leaves exactly `(B * C) mod 32768`, where `B` and `C`
are the resolved operands as natural numbers; the 16-bit intermediate of the code
loses nothing, and the stored value is at most 32767. -/
theorem add_mult_store_exact (s : CPU) (a b c : Nat) (ha : a ≤ 32775) :
    (∃ s', opADD s a b c = .ok 4 s' ∧
      (a < 32768 → s'.memory a = (registerOrLiteral s b + registerOrLiteral s c) % 32768) ∧
      (32768 ≤ a →
        s'.registers (a - 32768) = (registerOrLiteral s b + registerOrLiteral s c) % 32768) ∧
      (registerOrLiteral s b + registerOrLiteral s c) % 32768 ≤ 32767) ∧
    (∃ s', opMULT s a b c = .ok 4 s' ∧
      (a < 32768 → s'.memory a = (registerOrLiteral s b * registerOrLiteral s c) % 32768) ∧
      (32768 ≤ a →
        s'.registers (a - 32768) = (registerOrLiteral s b * registerOrLiteral s c) % 32768) ∧
      (registerOrLiteral s b * registerOrLiteral s c) % 32768 ≤ 32767) := by
  have hb1 : (registerOrLiteral s b + registerOrLiteral s c) % 32768 ≤ 32767 := by omega
  have hb2 : (registerOrLiteral s b * registerOrLiteral s c) % 32768 ≤ 32767 := by omega
  have u1 : opADD s a b c =
      ((write s a ((registerOrLiteral s b + registerOrLiteral s c) % 32768)).bind
        fun _ cpu1 => advance instruction.ADD cpu1) := by
    unfold opADD
    rw [wrap16_mod_base]
  have u2 : opMULT s a b c =
      ((write s a ((registerOrLiteral s b * registerOrLiteral s c) % 32768)).bind
        fun _ cpu1 => advance instruction.MULT cpu1) := by
    unfold opMULT
    rw [wrap16_mod_base]
  by_cases h : a < 32768
  · have e1 := u1.trans (store_mem s a _ instruction.ADD 3 h rfl)
    have e2 := u2.trans (store_mem s a _ instruction.MULT 3 h rfl)
    exact ⟨⟨_, e1, fun _ => by simp, fun hge => by omega, hb1⟩,
      ⟨_, e2, fun _ => by simp, fun hge => by omega, hb2⟩⟩
  · have h1 : 32768 ≤ a := by omega
    have e1 := u1.trans (store_reg s a _ instruction.ADD 3 h1 ha rfl)
    have e2 := u2.trans (store_reg s a _ instruction.MULT 3 h1 ha rfl)
    exact ⟨⟨_, e1, fun hge => by omega, fun _ => by simp, hb1⟩,
      ⟨_, e2, fun hge => by omega, fun _ => by simp, hb2⟩⟩

/-- Witness for C1: register 0 holds 32767 and ADD r0, r0, 1 stores 0. -/
theorem add_mult_store_exact_witness :
    (32768 : Nat) ≤ 32775 ∧
    (∃ s', opADD { blank with registers := fun _ => 32767 } 32768 32768 1 = .ok 4 s' ∧
      s'.registers 0 = 0) := by
  refine ⟨by decide, ?_⟩
  obtain ⟨⟨s', h1, _, h3, _⟩, _⟩ :=
    add_mult_store_exact { blank with registers := fun _ => 32767 } 32768 32768 1 (by decide)
  exact ⟨s', h1, h3 (by decide)⟩


/-- C2: IsRegister reports true exactly for the addresses 32768..32775, the
index it returns for such an address is `a - 32768`, and it reports false for
0, 32767 and 32776. -/
theorem IsRegister_iff_range (a : Nat) :
    ((IsRegister a).2 = true ↔ (32768 ≤ a ∧ a ≤ 32775)) ∧
    ((32768 ≤ a ∧ a ≤ 32775) → (IsRegister a).1 = a - 32768) ∧
    (¬ (32768 ≤ a ∧ a ≤ 32775) → (IsRegister a).2 = false) ∧
    (IsRegister 0).2 = false ∧ (IsRegister 32767).2 = false ∧
    (IsRegister 32776).2 = false := by
  refine ⟨?_, ?_, ?_, by decide, by decide, by decide⟩
  · rw [IsRegister_eq]
    simp
  · rintro ⟨h1, h2⟩
    rw [IsRegister_reg a h1 h2]
  · intro h
    rw [IsRegister_not_reg a (by omega)]


/-! ## Shared lemmas about the stack and the dispatch step -/

theorem memSize_eq : memSize = 32768 := rfl

theorem popstack_empty (c : CPU) (h : c.stack = []) :
    popstack c = .fault .stackUnderflow c := by
  simp [popstack, h]

theorem popstack_push (c : CPU) (st : List Nat) (v : Nat) (h : c.stack = st ++ [v]) :
    popstack c = .ok v { c with stack := st } := by
  have hlen : ((c.stack.length : Int) - 1) = (st.length : Int) := by
    rw [h]; simp
  unfold popstack
  simp only [hlen]
  have hneg : ¬ ((st.length : Int) < 0) := by omega
  simp [hneg, h]

/-- Under `pc <= 32764` the opcode fetch and the three operand fetches of Step
are in bounds, so Step runs the handler and then adds the returned delta. -/
theorem Step_of_handler (ev : Rendezvous) (s : CPU)
    (impl : CPU → Nat → Nat → Nat → Result Nat) (hpc : s.pc ≤ 32764)
    (hm : microcode ev (s.memory s.pc) = some impl) :
    Step ev s =
      (impl s (s.memory (s.pc + 1)) (s.memory (s.pc + 2)) (s.memory (s.pc + 3))).bind
        fun delta c1 => .ok () { c1 with pc := (c1.pc + delta) % 65536 } := by
  have h0 : s.pc < memSize := by rw [memSize_eq]; omega
  have e1 : (s.pc + 1) % 65536 = s.pc + 1 := by omega
  have e2 : (s.pc + 2) % 65536 = s.pc + 2 := by omega
  have e3 : (s.pc + 3) % 65536 = s.pc + 3 := by omega
  have b1 : s.pc + 1 < memSize := by rw [memSize_eq]; omega
  have b2 : s.pc + 2 < memSize := by rw [memSize_eq]; omega
  have b3 : s.pc + 3 < memSize := by rw [memSize_eq]; omega
  unfold Step
  simp only [h0, hm, e1, e2, e3, b1, b2, b3, if_true, and_self]

theorem registerOrLiteral_word (s : CPU) (v : Nat) (hs : WordState s) (hv : v < 65536) :
    registerOrLiteral s v < 65536 := by
  unfold registerOrLiteral
  split
  · exact hs.2.1 _
  · exact hv

theorem Run_halted (env : CPU → Rendezvous) (fuel : Nat) (c : CPU) (h : c.halted = true) :
    Run env fuel c = .returned c := by
  cases fuel <;> simp [Run, h]

theorem memOf_word (l : List Nat) (h : ∀ v ∈ l, v < 65536) (i : Nat) :
    memOf l i < 65536 := by
  unfold memOf
  by_cases hi : i < l.length
  · rw [List.getD_eq_getElem l 0 hi]
    exact h _ (List.getElem_mem hi)
  · rw [List.getD_eq_default l 0 (by omega)]
    decide


/-- C3 fails as stated: on the machine `callRetHalted` (pc = 0, `CALL 4` at 0,
`RET` at 4, halted flag already set) every premise of the claim holds and the
two Steps succeed and return to address 2, yet the machine is halted
afterwards: Step never consults or clears the halted flag. -/
theorem call_ret_halted_counterexample :
    callRetHalted.pc ≤ 32764 ∧
    callRetHalted.memory callRetHalted.pc = instruction.CALL ∧
    registerOrLiteral callRetHalted (callRetHalted.memory (callRetHalted.pc + 1)) = 4 ∧
    callRetHalted.memory 4 = instruction.RET ∧
    (∃ s1 s2, Step .cancelled callRetHalted = .ok () s1 ∧ Step .cancelled s1 = .ok () s2 ∧
      s2.pc = callRetHalted.pc + 2 ∧ s2.halted = true ∧ ¬ (s2.halted = false)) := by
  refine ⟨by decide, by decide, by decide, by decide, ?_⟩
  refine ⟨{ callRetHalted with stack := [2], pc := 4 }, { callRetHalted with pc := 2 },
    rfl, rfl, rfl, rfl, by decide⟩

/-- C3 (amended): with `pc <= 32764`, `CALL a` at `pc`, target `t = resolve(a)`
at most 32764 and `RET` at `t`, two Steps succeed and leave `pc = pc + 2`, the
stack, memory and registers as they were, and the halted flag unchanged (so a
machine that was not halted is still not halted). -/
theorem call_then_ret_returns (ev1 ev2 : Rendezvous) (s : CPU) (hpc : s.pc ≤ 32764)
    (hcall : s.memory s.pc = instruction.CALL)
    (ht : registerOrLiteral s (s.memory (s.pc + 1)) ≤ 32764)
    (hret : s.memory (registerOrLiteral s (s.memory (s.pc + 1))) = instruction.RET) :
    ∃ s1 s2, Step ev1 s = .ok () s1 ∧ Step ev2 s1 = .ok () s2 ∧
      s2.pc = s.pc + 2 ∧ s2.stack = s.stack ∧ s2.memory = s.memory ∧
      s2.registers = s.registers ∧ s2.halted = s.halted ∧
      (s.halted = false → s2.halted = false) := by
  have hm1 : microcode ev1 (s.memory s.pc) = some opCALL := by rw [hcall]; rfl
  have e2 : (s.pc + 2) % 65536 = s.pc + 2 := by omega
  obtain ⟨t, htdef⟩ : ∃ t, t = registerOrLiteral s (s.memory (s.pc + 1)) := ⟨_, rfl⟩
  rw [← htdef] at ht hret
  have et : (t + 0) % 65536 = t := by omega
  have st1 : Step ev1 s = .ok () { s with stack := s.stack ++ [s.pc + 2], pc := t } := by
    rw [Step_of_handler ev1 s opCALL hpc hm1]
    have hr : registerOrLiteral { s with stack := s.stack ++ [s.pc + 2] }
        (s.memory (s.pc + 1)) = t := by rw [htdef]; rfl
    simp only [opCALL, Result.bind, e2, hr, et]
  have hm2 : microcode ev2 (s.memory t) = some opRET := by rw [hret]; rfl
  have st2 : Step ev2 { s with stack := s.stack ++ [s.pc + 2], pc := t } =
      .ok () { s with pc := s.pc + 2 } := by
    rw [Step_of_handler ev2 _ opRET ht hm2]
    have hp := popstack_push { s with stack := s.stack ++ [s.pc + 2], pc := t }
      s.stack (s.pc + 2) rfl
    simp only [opRET, hp, Result.bind]
    simp [e2]
  exact ⟨_, _, st1, st2, rfl, rfl, rfl, rfl, rfl, fun h => h⟩

/-- Witness for C3 (amended): `CALL 4` at 0 with `RET` at 4 on a running machine. -/
theorem call_then_ret_returns_witness :
    ∃ s1 s2, Step .cancelled callRet = .ok () s1 ∧ Step .cancelled s1 = .ok () s2 ∧
      s2.pc = callRet.pc + 2 ∧ s2.stack = callRet.stack ∧ s2.memory = callRet.memory ∧
      s2.registers = callRet.registers ∧ s2.halted = callRet.halted ∧
      (callRet.halted = false → s2.halted = false) :=
  call_then_ret_returns .cancelled .cancelled callRet (by decide) (by decide) (by decide)
    (by decide)


/-- C4: for every machine, operand `x` and valid destination `d`, PUSH x
followed at once by POP d both return normally, leave in `d` the value `x`
resolved to before the PUSH, and leave the stack as it was before the PUSH. -/
theorem push_then_pop_roundtrip (s : CPU) (x d b c b2 c2 : Nat) (hd : d ≤ 32775) :
    ∃ s1 s2, opPUSH s x b c = .ok 2 s1 ∧ opPOP s1 d b2 c2 = .ok 2 s2 ∧
      (d < 32768 → s2.memory d = registerOrLiteral s x) ∧
      (32768 ≤ d → s2.registers (d - 32768) = registerOrLiteral s x) ∧
      s2.stack = s.stack := by
  have h1 : opPUSH s x b c = .ok 2 { s with stack := s.stack ++ [registerOrLiteral s x] } :=
    rfl
  have hp := popstack_push { s with stack := s.stack ++ [registerOrLiteral s x] }
    s.stack (registerOrLiteral s x) rfl
  have u : opPOP { s with stack := s.stack ++ [registerOrLiteral s x] } d b2 c2 =
      ((write s d (registerOrLiteral s x)).bind fun _ cpu2 =>
        advance instruction.POP cpu2) := by
    simp only [opPOP, hp, Result.bind]
  by_cases h : d < 32768
  · have e := u.trans (store_mem s d _ instruction.POP 1 h rfl)
    exact ⟨_, _, h1, e, fun _ => by simp, fun hge => by omega, rfl⟩
  · have h' : 32768 ≤ d := by omega
    have e := u.trans (store_reg s d _ instruction.POP 1 h' hd rfl)
    exact ⟨_, _, h1, e, fun hlt => by omega, fun _ => by simp, rfl⟩

/-- Witness for C4: PUSH 7 then POP r0 on the blank machine leaves 7 in r0. -/
theorem push_then_pop_roundtrip_witness :
    ∃ s1 s2, opPUSH blank 7 0 0 = .ok 2 s1 ∧ opPOP s1 32768 0 0 = .ok 2 s2 ∧
      s2.registers 0 = 7 ∧ s2.stack = [] := by
  obtain ⟨s1, s2, h1, h2, _, h4, h5⟩ :=
    push_then_pop_roundtrip blank 7 32768 0 0 0 0 (by decide)
  exact ⟨s1, s2, h1, h2, h4 (by decide), h5⟩

/-- C5: on an empty stack POP a panics with "stack underflow" for every
operand, and the machine at the panic is the machine before the instruction:
memory, registers, stack, pc and the halted flag are untouched and nothing is
written to `a`. The same holds for a whole Step that dispatches a POP at
`pc <= 32764`. -/
theorem pop_empty_underflow (s : CPU) (hs : s.stack = []) :
    (∀ a b c, opPOP s a b c = .fault .stackUnderflow s) ∧
    (∀ ev, s.pc ≤ 32764 → s.memory s.pc = instruction.POP →
      Step ev s = .fault .stackUnderflow s) := by
  have hp : ∀ a b c, opPOP s a b c = .fault .stackUnderflow s := by
    intro a b c
    simp only [opPOP, popstack_empty s hs, Result.bind]
  refine ⟨hp, ?_⟩
  intro ev hpc hop
  have hm : microcode ev (s.memory s.pc) = some opPOP := by rw [hop]; rfl
  rw [Step_of_handler ev s opPOP hpc hm, hp]
  rfl

/-- Witness for C5: POP r0 on the blank machine, and a Step of the program
whose first word is POP. -/
theorem pop_empty_underflow_witness :
    opPOP blank 32768 0 0 = .fault .stackUnderflow blank ∧
    Step .cancelled popProg = .fault .stackUnderflow popProg :=
  ⟨(pop_empty_underflow blank rfl).1 32768 0 0,
    (pop_empty_underflow popProg rfl).2 .cancelled (by decide) (by decide)⟩

/-- C6: with an empty stack the RET handler returns normally (no panic) with
delta 0 and the machine `shutdown s`: halted is set, the output is closed (it
was already closed if the machine was halted before), and pc, memory,
registers and stack are those of `s`; Run on the resulting machine returns at
once for every fuel, executing no Step. When moreover `pc <= 32764` and the word
at `pc` is RET, Step itself succeeds with that machine, and Run from a
non-halted such machine executes this one Step and returns. -/
theorem ret_empty_stack_halts (s : CPU) (hs : s.stack = []) :
    (∀ a b c, opRET s a b c = .ok 0 (shutdown s)) ∧
    (shutdown s).halted = true ∧
    ((s.halted = true → s.outClosed = true) → (shutdown s).outClosed = true) ∧
    (shutdown s).pc = s.pc ∧ (shutdown s).memory = s.memory ∧
    (shutdown s).registers = s.registers ∧ (shutdown s).stack = [] ∧
    (∀ env fuel, Run env fuel (shutdown s) = .returned (shutdown s)) ∧
    (s.pc ≤ 32764 → s.memory s.pc = instruction.RET →
      (∀ ev, Step ev s = .ok () (shutdown s)) ∧
      (s.halted = false → ∀ env fuel, Run env (fuel + 1) s = .returned (shutdown s))) := by
  have hh : (shutdown s).halted = true := rfl
  have hr : ∀ a b c, opRET s a b c = .ok 0 (shutdown s) := by
    intro a b c
    simp [opRET, hs]
  refine ⟨hr, hh, ?_, ?_, ?_, ?_, ?_, fun env fuel => Run_halted env fuel _ hh, ?_⟩
  · intro h
    cases hb : s.halted
    · simp [shutdown, hb]
    · simp [shutdown, hb, h hb]
  · cases hb : s.halted <;> simp [shutdown, hb]
  · cases hb : s.halted <;> simp [shutdown, hb]
  · cases hb : s.halted <;> simp [shutdown, hb]
  · cases hb : s.halted <;> simp [shutdown, hb, hs]
  · intro hpc hop
    have hstep : ∀ ev, Step ev s = .ok () (shutdown s) := by
      intro ev
      have hm : microcode ev (s.memory s.pc) = some opRET := by rw [hop]; rfl
      rw [Step_of_handler ev s opRET hpc hm, hr]
      cases hb : s.halted <;> simp [Result.bind, shutdown, hb] <;> omega
    refine ⟨hstep, ?_⟩
    intro hnh env fuel
    simp only [Run, hnh, hstep (env s)]
    exact Run_halted env fuel _ hh

/-- Witness for C6: RET at address 0 of a running machine with an empty stack. -/
theorem ret_empty_stack_halts_witness :
    opRET retOnly 0 0 0 = .ok 0 (shutdown retOnly) ∧ (shutdown retOnly).halted = true ∧
    Step .cancelled retOnly = .ok () (shutdown retOnly) ∧
    Run (fun _ => .cancelled) 1 retOnly = .returned (shutdown retOnly) := by
  have h := ret_empty_stack_halts retOnly rfl
  have h2 := h.2.2.2.2.2.2.2.2 (by decide) (by decide)
  exact ⟨h.1 0 0 0, h.2.1, h2.1 .cancelled, h2.2 rfl (fun _ => .cancelled) 0⟩


/-- A handler that assigns `pc := t` and returns delta 0 makes Step end with
`pc = t` when `t` is a 16-bit word. -/
theorem jump_result (s : CPU) (t : Nat) (ht : t < 65536) :
    ((Result.ok 0 { s with pc := t } : Result Nat).bind fun delta c1 =>
      .ok () { c1 with pc := (c1.pc + delta) % 65536 }) =
      (.ok () { s with pc := t } : Result Unit) := by
  have et : (t + 0) % 65536 = t := by omega
  simp only [Result.bind, et]

/-- C7: on a machine of 16-bit words with `pc <= 32764`, a Step of `JMP a`
ends with `pc = resolve(a)`, a Step of `JT a,b` with `resolve(a) != 0` and a
Step of `JF a,b` with `resolve(a) = 0` end with `pc = resolve(b)`; in each case
the Step succeeds and the resulting machine differs from the old one in `pc`
only, so memory, registers, stack and halted flag are unchanged. -/
theorem jump_sets_pc (ev : Rendezvous) (s : CPU) (hw : WordState s) (hpc : s.pc ≤ 32764) :
    (s.memory s.pc = instruction.JMP →
      Step ev s = .ok () { s with pc := registerOrLiteral s (s.memory (s.pc + 1)) }) ∧
    (s.memory s.pc = instruction.JT → registerOrLiteral s (s.memory (s.pc + 1)) ≠ 0 →
      Step ev s = .ok () { s with pc := registerOrLiteral s (s.memory (s.pc + 2)) }) ∧
    (s.memory s.pc = instruction.JF → registerOrLiteral s (s.memory (s.pc + 1)) = 0 →
      Step ev s = .ok () { s with pc := registerOrLiteral s (s.memory (s.pc + 2)) }) := by
  have w1 := registerOrLiteral_word s (s.memory (s.pc + 1)) hw (hw.1 _)
  have w2 := registerOrLiteral_word s (s.memory (s.pc + 2)) hw (hw.1 _)
  refine ⟨?_, ?_, ?_⟩
  · intro hop
    have hm : microcode ev (s.memory s.pc) = some opJMP := by rw [hop]; rfl
    rw [Step_of_handler ev s opJMP hpc hm]
    exact jump_result s _ w1
  · intro hop hne
    have hm : microcode ev (s.memory s.pc) = some opJT := by rw [hop]; rfl
    rw [Step_of_handler ev s opJT hpc hm]
    simp only [opJT, hne, ne_eq, not_false_eq_true, if_true]
    exact jump_result s _ w2
  · intro hop he
    have hm : microcode ev (s.memory s.pc) = some opJF := by rw [hop]; rfl
    rw [Step_of_handler ev s opJF hpc hm]
    simp only [opJF, he, if_true]
    exact jump_result s _ w2

theorem blank_word (l : List Nat) (h : ∀ v ∈ l, v < 65536) :
    WordState { blank with memory := memOf l } := by
  refine ⟨memOf_word l h, ?_, ?_, ?_⟩
  · intro r
    show (0 : Nat) < 65536
    decide
  · intro v hv
    cases hv
  · show (0 : Nat) < 65536
    decide

/-- Witness for C7: `JMP 100` at address 0 ends with `pc = 100`. -/
theorem jump_sets_pc_witness :
    Step .cancelled jmpProg = .ok () { jmpProg with pc := 100 } :=
  (jump_sets_pc .cancelled jmpProg (blank_word _ (by decide)) (by decide)).1 (by decide)

/-- C8 fails as stated: `JT 0, 5` at address 0 does not take the branch, the
handler returns delta 3 (`1 + ArgCount(JT)`), and Step ends with `pc = 3`, not
`pc = 2`. -/
theorem branch_not_taken_counterexample :
    jtProg.memory jtProg.pc = instruction.JT ∧
    registerOrLiteral jtProg (jtProg.memory (jtProg.pc + 1)) = 0 ∧
    opJT jtProg 0 5 0 = .ok 3 jtProg ∧
    (∃ s', Step .cancelled jtProg = .ok () s' ∧ s'.pc = jtProg.pc + 3 ∧
      s'.pc ≠ jtProg.pc + 2) :=
  ⟨by decide, by decide, rfl, ⟨{ jtProg with pc := 3 }, rfl, rfl, by decide⟩⟩

/-- C8 (amended): for every machine, when the branch is not taken (JT with
`resolve(a) = 0`, JF with `resolve(a) != 0`) the handler changes nothing and
returns delta 3, the opcode word plus two operand words; hence a Step of such
an instruction at `pc <= 32764` succeeds and advances the program counter by 3,
changing nothing else. -/
theorem branch_not_taken_advances_three (s : CPU) (a b c : Nat) :
    (registerOrLiteral s a = 0 → opJT s a b c = .ok 3 s) ∧
    (registerOrLiteral s a ≠ 0 → opJF s a b c = .ok 3 s) ∧
    (∀ ev, s.pc ≤ 32764 →
      (s.memory s.pc = instruction.JT → registerOrLiteral s (s.memory (s.pc + 1)) = 0 →
        Step ev s = .ok () { s with pc := s.pc + 3 }) ∧
      (s.memory s.pc = instruction.JF → registerOrLiteral s (s.memory (s.pc + 1)) ≠ 0 →
        Step ev s = .ok () { s with pc := s.pc + 3 })) := by
  have e3 : ∀ t : CPU, t.pc ≤ 32764 → (t.pc + 3) % 65536 = t.pc + 3 := by
    intro t ht; omega
  refine ⟨?_, ?_, ?_⟩
  · intro h
    simp [opJT, h, advance, instruction.JT, instruction.ArgCount]
  · intro h
    simp [opJF, h, advance, instruction.JF, instruction.ArgCount]
  · intro ev hpc
    refine ⟨?_, ?_⟩
    · intro hop h
      have hm : microcode ev (s.memory s.pc) = some opJT := by rw [hop]; rfl
      rw [Step_of_handler ev s opJT hpc hm]
      simp [opJT, h, advance, instruction.JT, instruction.ArgCount, Result.bind, e3 s hpc]
    · intro hop h
      have hm : microcode ev (s.memory s.pc) = some opJF := by rw [hop]; rfl
      rw [Step_of_handler ev s opJF hpc hm]
      simp [opJF, h, advance, instruction.JF, instruction.ArgCount, Result.bind, e3 s hpc]


/-- Witness for C8 (amended): `JT 0, 5` at address 0 advances `pc` from 0 to 3. -/
theorem branch_not_taken_advances_three_witness :
    opJT jtProg 0 5 0 = .ok 3 jtProg ∧
    Step .cancelled jtProg = .ok () { jtProg with pc := jtProg.pc + 3 } :=
  ⟨(branch_not_taken_advances_three jtProg 0 5 0).1 (by decide),
    ((branch_not_taken_advances_three jtProg 0 5 0).2.2 .cancelled (by decide)).1
      (by decide) (by decide)⟩

/-- MOD with a non-zero resolved divisor is a store of `B % C` followed by the
advance. -/
theorem opMOD_nonzero (s : CPU) (a b c : Nat) (hc : registerOrLiteral s c ≠ 0) :
    opMOD s a b c =
      ((write s a (registerOrLiteral s b % registerOrLiteral s c)).bind
        fun _ cpu1 => advance instruction.MOD cpu1) := by
  simp only [opMOD, hc, if_false]

/-- C9 fails as stated: `MOD r0, 40000, 50000` (two literal operands above
32775, which resolve to themselves) stores 40000 into register 0, a value
outside [0, 32767]. -/
theorem mod_result_range_counterexample :
    registerOrLiteral blank 40000 = 40000 ∧ registerOrLiteral blank 50000 = 50000 ∧
    (∃ s', opMOD blank 32768 40000 50000 = .ok 4 s' ∧ s'.registers 0 = 40000 ∧
      ¬ (s'.registers 0 ≤ 32767)) :=
  ⟨by decide, by decide,
    ⟨{ blank with registers := fun r => if r = 0 then 40000 else 0 }, rfl, rfl, by decide⟩⟩

/-- On 16-bit words with a non-zero divisor the remainder leaves [0, 32767]
exactly when `32768 <= B < C`, where it is `B` itself. -/
theorem mod_le_iff (B C : Nat) (hB : B < 65536) (hC : C < 65536) (hc : C ≠ 0) :
    B % C ≤ 32767 ↔ ¬ (32768 ≤ B ∧ B < C) := by
  by_cases hlt : B < C
  · rw [Nat.mod_eq_of_lt hlt]
    omega
  · have hle : C ≤ B := by omega
    have h1 : B % C < C := Nat.mod_lt _ (Nat.pos_of_ne_zero hc)
    have h2 : B % C ≤ B - C := by
      rw [Nat.mod_eq_sub_mod hle]
      exact Nat.mod_le _ _
    constructor
    · intro _
      omega
    · intro _
      omega

/-- C9 (amended): for a valid destination `a` and resolved operands `B`, `C`
that are 16-bit words, every result that MOD stores into `a` lies in
[0, 32767] unless `32768 <= B < C`; whenever `C != 0` MOD returns normally and
stores `B % C`, and that value is at most 32767 exactly when it is not the
case that `32768 <= B < C`. -/
theorem mod_result_in_range (s : CPU) (a b c : Nat) (ha : a ≤ 32775)
    (hB : registerOrLiteral s b < 65536) (hC : registerOrLiteral s c < 65536) :
    (∀ d s', opMOD s a b c = .ok d s' →
      ¬ (32768 ≤ registerOrLiteral s b ∧ registerOrLiteral s b < registerOrLiteral s c) →
      (a < 32768 → s'.memory a ≤ 32767) ∧
      (32768 ≤ a → s'.registers (a - 32768) ≤ 32767)) ∧
    (registerOrLiteral s c ≠ 0 →
      ∃ s', opMOD s a b c = .ok 4 s' ∧
        (a < 32768 → s'.memory a = registerOrLiteral s b % registerOrLiteral s c) ∧
        (32768 ≤ a →
          s'.registers (a - 32768) = registerOrLiteral s b % registerOrLiteral s c) ∧
        (registerOrLiteral s b % registerOrLiteral s c ≤ 32767 ↔
          ¬ (32768 ≤ registerOrLiteral s b ∧
            registerOrLiteral s b < registerOrLiteral s c))) := by
  have hex : registerOrLiteral s c ≠ 0 →
      ∃ s', opMOD s a b c = .ok 4 s' ∧
        (a < 32768 → s'.memory a = registerOrLiteral s b % registerOrLiteral s c) ∧
        (32768 ≤ a →
          s'.registers (a - 32768) = registerOrLiteral s b % registerOrLiteral s c) ∧
        (registerOrLiteral s b % registerOrLiteral s c ≤ 32767 ↔
          ¬ (32768 ≤ registerOrLiteral s b ∧
            registerOrLiteral s b < registerOrLiteral s c)) := by
    intro hc
    have hiff := mod_le_iff _ _ hB hC hc
    by_cases h : a < 32768
    · have e := (opMOD_nonzero s a b c hc).trans (store_mem s a _ instruction.MOD 3 h rfl)
      exact ⟨_, e, fun _ => by simp, fun hge => by omega, hiff⟩
    · have hge : 32768 ≤ a := by omega
      have e := (opMOD_nonzero s a b c hc).trans
        (store_reg s a _ instruction.MOD 3 hge ha rfl)
      exact ⟨_, e, fun hlt => by omega, fun _ => by simp, hiff⟩
  refine ⟨?_, hex⟩
  intro d s' hok hn
  by_cases hc : registerOrLiteral s c = 0
  · simp only [opMOD, hc, if_true] at hok
    cases hok
  · obtain ⟨s2, e, hm, hr, hiff⟩ := hex hc
    rw [e] at hok
    cases hok
    have hv := hiff.2 hn
    exact ⟨fun h => by rw [hm h]; exact hv, fun h => by rw [hr h]; exact hv⟩

/-- Witness for C9 (amended): `MOD r0, 65535, 40000` stores 25535 and
`MOD r0, 40000, 40000` stores 0, both within [0, 32767]. -/
theorem mod_result_in_range_witness :
    (∃ s', opMOD blank 32768 65535 40000 = .ok 4 s' ∧ s'.registers 0 = 25535 ∧
      s'.registers 0 ≤ 32767) ∧
    (∃ s', opMOD blank 32768 40000 40000 = .ok 4 s' ∧ s'.registers 0 = 0) := by
  have h1 := mod_result_in_range blank 32768 65535 40000 (by decide) (by decide) (by decide)
  have h2 := mod_result_in_range blank 32768 40000 40000 (by decide) (by decide) (by decide)
  obtain ⟨s1, e1, _, r1, _⟩ := h1.2 (by decide)
  obtain ⟨s2, e2, _, r2, _⟩ := h2.2 (by decide)
  have b1 := (h1.1 4 s1 e1 (by decide)).2 (by decide)
  exact ⟨⟨s1, e1, r1 (by decide), b1⟩, ⟨s2, e2, r2 (by decide)⟩⟩

/-- C10: for a valid destination `a`, MOD panics exactly when `resolve(c) = 0`;
the panic is "integer divide by zero" and leaves the machine as it was (memory,
registers, stack, pc); when `resolve(c) != 0` MOD returns normally with
`resolve(b) % resolve(c)` stored in `a`. -/
theorem mod_fails_iff_zero_divisor (s : CPU) (a b c : Nat) (ha : a ≤ 32775) :
    ((∃ f s', opMOD s a b c = .fault f s') ↔ registerOrLiteral s c = 0) ∧
    (registerOrLiteral s c = 0 → opMOD s a b c = .fault .divideByZero s) ∧
    (registerOrLiteral s c ≠ 0 →
      ∃ s', opMOD s a b c = .ok 4 s' ∧
        (a < 32768 → s'.memory a = registerOrLiteral s b % registerOrLiteral s c) ∧
        (32768 ≤ a →
          s'.registers (a - 32768) = registerOrLiteral s b % registerOrLiteral s c)) := by
  have hz : registerOrLiteral s c = 0 → opMOD s a b c = .fault .divideByZero s := by
    intro h
    simp only [opMOD, h, if_true]
  have hnz : registerOrLiteral s c ≠ 0 →
      ∃ s', opMOD s a b c = .ok 4 s' ∧
        (a < 32768 → s'.memory a = registerOrLiteral s b % registerOrLiteral s c) ∧
        (32768 ≤ a →
          s'.registers (a - 32768) = registerOrLiteral s b % registerOrLiteral s c) := by
    intro hc
    by_cases h : a < 32768
    · have e := (opMOD_nonzero s a b c hc).trans (store_mem s a _ instruction.MOD 3 h rfl)
      exact ⟨_, e, fun _ => by simp, fun hge => by omega⟩
    · have h' : 32768 ≤ a := by omega
      have e := (opMOD_nonzero s a b c hc).trans
        (store_reg s a _ instruction.MOD 3 h' ha rfl)
      exact ⟨_, e, fun hlt => by omega, fun _ => by simp⟩
  refine ⟨⟨?_, fun h => ⟨_, _, hz h⟩⟩, hz, hnz⟩
  rintro ⟨f, s', hf⟩
  by_contra hc
  obtain ⟨s'', hok, _⟩ := hnz hc
  rw [hok] at hf
  cases hf

/-- Witness for C10: `MOD r0, 7, 0` panics and `MOD r0, 7, 4` stores 3. -/
theorem mod_fails_iff_zero_divisor_witness :
    opMOD blank 32768 7 0 = .fault .divideByZero blank ∧
    (∃ s', opMOD blank 32768 7 4 = .ok 4 s' ∧ s'.registers 0 = 3) := by
  have h := mod_fails_iff_zero_divisor blank 32768 7
  refine ⟨(h 0 (by decide)).2.1 (by decide), ?_⟩
  obtain ⟨s', h1, _, h3⟩ := (h 4 (by decide)).2.2 (by decide)
  exact ⟨s', h1, h3 (by decide)⟩

/-! ## Bitwise and comparison instructions -/

/-- The 16-bit complement masked to 15 bits is `32767 - x mod 32768`. -/
theorem not15_eq (x : Nat) : ((x ^^^ 0xFFFF) % 65536) &&& 0x7FFF = 32767 - x % 32768 := by
  have hr : 32767 - x % 32768 = 2 ^ 15 - (x % 2 ^ 15 + 1) := by omega
  have hl : ((x ^^^ 0xFFFF) % 65536) &&& 0x7FFF =
      ((x ^^^ (2 ^ 16 - 1)) % 2 ^ 16) &&& (2 ^ 15 - 1) := rfl
  rw [hr, hl]
  apply Nat.eq_of_testBit_eq
  intro i
  rw [Nat.testBit_two_pow_sub_succ (Nat.mod_lt _ (by decide))]
  simp only [Nat.testBit_and, Nat.testBit_mod_two_pow, Nat.testBit_xor,
    Nat.testBit_two_pow_sub_one]
  by_cases h : i < 15
  · have h16 : i < 16 := by omega
    simp [h, h16]
  · simp [h]

/-- C11: for a valid destination `a`, NOT a,b returns normally and leaves in `a`
the complement of the low 15 bits of `resolve(b)`, that is
`32767 - resolve(b) mod 32768`; the stored value is at most 32767, it is 32767
when `resolve(b) = 0` and 0 when `resolve(b) = 32767`. -/
theorem not_stores_15bit_complement (s : CPU) (a b c : Nat) (ha : a ≤ 32775) :
    ∃ s', opNOT s a b c = .ok 3 s' ∧
      (a < 32768 → s'.memory a = 32767 - registerOrLiteral s b % 32768) ∧
      (32768 ≤ a → s'.registers (a - 32768) = 32767 - registerOrLiteral s b % 32768) ∧
      32767 - registerOrLiteral s b % 32768 ≤ 32767 ∧
      (registerOrLiteral s b = 0 → 32767 - registerOrLiteral s b % 32768 = 32767) ∧
      (registerOrLiteral s b = 32767 → 32767 - registerOrLiteral s b % 32768 = 0) := by
  have u : opNOT s a b c =
      ((write s a (32767 - registerOrLiteral s b % 32768)).bind
        fun _ cpu1 => advance instruction.NOT cpu1) := by
    unfold opNOT
    rw [not15_eq]
  have h0 : registerOrLiteral s b = 0 → 32767 - registerOrLiteral s b % 32768 = 32767 := by
    intro h; omega
  have h1 : registerOrLiteral s b = 32767 → 32767 - registerOrLiteral s b % 32768 = 0 := by
    intro h; omega
  by_cases h : a < 32768
  · have e := u.trans (store_mem s a _ instruction.NOT 2 h rfl)
    exact ⟨_, e, fun _ => by simp, fun hge => by omega, by omega, h0, h1⟩
  · have hge : 32768 ≤ a := by omega
    have e := u.trans (store_reg s a _ instruction.NOT 2 hge ha rfl)
    exact ⟨_, e, fun hlt => by omega, fun _ => by simp, by omega, h0, h1⟩

/-- Witness for C11: `NOT r0, 0` stores 32767 and `NOT r0, 32767` stores 0. -/
theorem not_stores_15bit_complement_witness :
    (∃ s', opNOT blank 32768 0 0 = .ok 3 s' ∧ s'.registers 0 = 32767) ∧
    (∃ s', opNOT blank 32768 32767 0 = .ok 3 s' ∧ s'.registers 0 = 0) := by
  obtain ⟨s1, e1, _, r1, _⟩ := not_stores_15bit_complement blank 32768 0 0 (by decide)
  obtain ⟨s2, e2, _, r2, _⟩ := not_stores_15bit_complement blank 32768 32767 0 (by decide)
  exact ⟨⟨s1, e1, r1 (by decide)⟩, ⟨s2, e2, r2 (by decide)⟩⟩

/-- C14: for a valid destination `a`, EQ stores 1 when `resolve(b) = resolve(c)`
and 0 otherwise, GT stores 1 when `resolve(b) > resolve(c)` (compared as
unsigned numbers) and 0 otherwise; both return normally and the stored value is
0 or 1. -/
theorem eq_gt_store_flag (s : CPU) (a b c : Nat) (ha : a ≤ 32775) :
    (∃ s' v, opEQ s a b c = .ok 4 s' ∧
      v = (if registerOrLiteral s b = registerOrLiteral s c then 1 else 0) ∧
      (a < 32768 → s'.memory a = v) ∧ (32768 ≤ a → s'.registers (a - 32768) = v) ∧
      (v = 0 ∨ v = 1)) ∧
    (∃ s' v, opGT s a b c = .ok 4 s' ∧
      v = (if registerOrLiteral s b > registerOrLiteral s c then 1 else 0) ∧
      (a < 32768 → s'.memory a = v) ∧ (32768 ≤ a → s'.registers (a - 32768) = v) ∧
      (v = 0 ∨ v = 1)) := by
  have f1 : ∀ p : Prop, [Decidable p] → ((if p then 1 else 0 : Nat) = 0 ∨
      (if p then 1 else 0 : Nat) = 1) := by
    intro p _
    by_cases hp : p <;> simp [hp]
  by_cases h : a < 32768
  · have e1 : opEQ s a b c = _ := store_mem s a _ instruction.EQ 3 h rfl
    have e2 : opGT s a b c = _ := store_mem s a _ instruction.GT 3 h rfl
    exact ⟨⟨_, _, e1, rfl, fun _ => by simp, fun hge => by omega, f1 _⟩,
      ⟨_, _, e2, rfl, fun _ => by simp, fun hge => by omega, f1 _⟩⟩
  · have hge : 32768 ≤ a := by omega
    have e1 : opEQ s a b c = _ := store_reg s a _ instruction.EQ 3 hge ha rfl
    have e2 : opGT s a b c = _ := store_reg s a _ instruction.GT 3 hge ha rfl
    exact ⟨⟨_, _, e1, rfl, fun hlt => by omega, fun _ => by simp, f1 _⟩,
      ⟨_, _, e2, rfl, fun hlt => by omega, fun _ => by simp, f1 _⟩⟩

/-- Witness for C14: EQ(5,5) = 1, EQ(5,6) = 0, GT(6,5) = 1, GT(5,6) = 0. -/
theorem eq_gt_store_flag_witness :
    (∃ s', opEQ blank 32768 5 5 = .ok 4 s' ∧ s'.registers 0 = 1) ∧
    (∃ s', opEQ blank 32768 5 6 = .ok 4 s' ∧ s'.registers 0 = 0) ∧
    (∃ s', opGT blank 32768 6 5 = .ok 4 s' ∧ s'.registers 0 = 1) ∧
    (∃ s', opGT blank 32768 5 6 = .ok 4 s' ∧ s'.registers 0 = 0) := by
  obtain ⟨⟨s1, v1, e1, hv1, _, r1, _⟩, _⟩ := eq_gt_store_flag blank 32768 5 5 (by decide)
  obtain ⟨⟨s2, v2, e2, hv2, _, r2, _⟩, ⟨s4, v4, e4, hv4, _, r4, _⟩⟩ :=
    eq_gt_store_flag blank 32768 5 6 (by decide)
  obtain ⟨_, ⟨s3, v3, e3, hv3, _, r3, _⟩⟩ := eq_gt_store_flag blank 32768 6 5 (by decide)
  refine ⟨⟨s1, e1, ?_⟩, ⟨s2, e2, ?_⟩, ⟨s3, e3, ?_⟩, ⟨s4, e4, ?_⟩⟩
  · rw [r1 (by decide), hv1]; decide
  · rw [r2 (by decide), hv2]; decide
  · rw [r3 (by decide), hv3]; decide
  · rw [r4 (by decide), hv4]; decide

/-! ## Memory access instructions -/

/-- Effect of the common handler tail "store `v` at destination `a`, then
return `1 + ArgCount`": for a valid destination the store succeeds and touches
the destination only. -/
theorem store_effect (s : CPU) (a v instr n : Nat) (ha : a ≤ 32775)
    (hn : instruction.ArgCount instr = some n) :
    ∃ s', ((write s a v).bind fun _ cpu1 => advance instr cpu1) = .ok ((1 + n) % 65536) s' ∧
      (a < 32768 → s'.memory a = v ∧ (∀ i, i ≠ a → s'.memory i = s.memory i) ∧
        s'.registers = s.registers) ∧
      (32768 ≤ a → s'.registers (a - 32768) = v ∧
        (∀ r, r ≠ a - 32768 → s'.registers r = s.registers r) ∧ s'.memory = s.memory) ∧
      s'.stack = s.stack ∧ s'.pc = s.pc ∧ s'.halted = s.halted ∧ s'.output = s.output := by
  by_cases h : a < 32768
  · refine ⟨_, store_mem s a v instr n h hn, ?_, fun hge => by omega, rfl, rfl, rfl, rfl⟩
    intro _
    refine ⟨by simp, ?_, rfl⟩
    intro i hi
    simp [hi]
  · have hge : 32768 ≤ a := by omega
    refine ⟨_, store_reg s a v instr n hge ha hn, fun hlt => by omega, ?_, rfl, rfl, rfl, rfl⟩
    intro _
    refine ⟨by simp, ?_, rfl⟩
    intro r hr
    simp [hr]

/-- RMEM with an in-range source address `t` is a store of `memory[t]`. -/
theorem opRMEM_reg (s : CPU) (a b c : Nat) (h1 : 32768 ≤ b) (h2 : b ≤ 32775)
    (ht : s.registers (b - 32768) < 32768) :
    opRMEM s a b c =
      ((write s a (s.memory (s.registers (b - 32768)))).bind
        fun _ cpu1 => advance instruction.RMEM cpu1) := by
  have hm : s.registers (b - 32768) < memSize := by rw [memSize_eq]; exact ht
  simp only [opRMEM, IsRegister_reg b h1 h2, hm, if_true]

theorem opRMEM_lit (s : CPU) (a b c : Nat) (hb : b < 32768) :
    opRMEM s a b c =
      ((write s a (s.memory b)).bind fun _ cpu1 => advance instruction.RMEM cpu1) := by
  have hm : b < memSize := by rw [memSize_eq]; exact hb
  simp only [opRMEM, IsRegister_not_reg b (Or.inl hb), hm, if_true]

/-- C12 fails as stated: `RMEM r0, r1` with register 1 holding 40000 has no
memory cell to read; the handler panics with an index out of range and stores
nothing (register 0 keeps its value 0). -/
theorem rmem_register_counterexample :
    IsRegister 32769 = (1, true) ∧ rmemBad.registers 1 = 40000 ∧
    opRMEM rmemBad 32768 32769 0 = .fault .indexOutOfRange rmemBad ∧
    (∀ s' d, opRMEM rmemBad 32768 32769 0 ≠ .ok d s') := by
  refine ⟨by decide, by decide, rfl, ?_⟩
  intro s' d h
  have hf : opRMEM rmemBad 32768 32769 0 = .fault .indexOutOfRange rmemBad := rfl
  rw [hf] at h
  cases h

/-- C12 (amended): for a valid destination `a`, RMEM a,b returns normally with
delta 3 and stores into `a` the cell `memory[registers[r]]` when `b` is the
address of register `r` and `registers[r] < 32768`, and the cell `memory[b]`
when `b < 32768`; the handler changes nothing but the destination (Step then
adds the delta to `pc`). -/
theorem rmem_reads_through_register (s : CPU) (a b c : Nat) (ha : a ≤ 32775) :
    (32768 ≤ b → b ≤ 32775 → s.registers (b - 32768) < 32768 →
      ∃ s', opRMEM s a b c = .ok 3 s' ∧
        (a < 32768 → s'.memory a = s.memory (s.registers (b - 32768)) ∧
          (∀ i, i ≠ a → s'.memory i = s.memory i) ∧ s'.registers = s.registers) ∧
        (32768 ≤ a → s'.registers (a - 32768) = s.memory (s.registers (b - 32768)) ∧
          (∀ r, r ≠ a - 32768 → s'.registers r = s.registers r) ∧ s'.memory = s.memory) ∧
        s'.stack = s.stack ∧ s'.pc = s.pc ∧ s'.halted = s.halted ∧ s'.output = s.output) ∧
    (b < 32768 →
      ∃ s', opRMEM s a b c = .ok 3 s' ∧
        (a < 32768 → s'.memory a = s.memory b ∧
          (∀ i, i ≠ a → s'.memory i = s.memory i) ∧ s'.registers = s.registers) ∧
        (32768 ≤ a → s'.registers (a - 32768) = s.memory b ∧
          (∀ r, r ≠ a - 32768 → s'.registers r = s.registers r) ∧ s'.memory = s.memory) ∧
        s'.stack = s.stack ∧ s'.pc = s.pc ∧ s'.halted = s.halted ∧ s'.output = s.output) := by
  refine ⟨?_, ?_⟩
  · intro h1 h2 ht
    obtain ⟨s', e, rest⟩ := store_effect s a (s.memory (s.registers (b - 32768)))
      instruction.RMEM 2 ha rfl
    exact ⟨s', (opRMEM_reg s a b c h1 h2 ht).trans e, rest⟩
  · intro hb
    obtain ⟨s', e, rest⟩ := store_effect s a (s.memory b) instruction.RMEM 2 ha rfl
    exact ⟨s', (opRMEM_lit s a b c hb).trans e, rest⟩

/-- Witness for C12 (amended): `RMEM r0, r1` with register 1 holding 100 and
memory cell 100 holding 77 stores 77, not 100, into register 0. -/
theorem rmem_reads_through_register_witness :
    ∃ s', opRMEM rmemGood 32768 32769 0 = .ok 3 s' ∧ s'.registers 0 = 77 := by
  obtain ⟨s', e, _, hr, _⟩ :=
    (rmem_reads_through_register rmemGood 32768 32769 0 (by decide)).1
      (by decide) (by decide) (by decide)
  exact ⟨s', e, (hr (by decide)).1⟩

/-- C13: when `resolve(a) < 32768`, WMEM a,b returns normally and sets
`memory[resolve(a)]` to `resolve(b)`; every other memory cell, all registers and
the stack are unchanged, whether or not `a` is a register address. -/
theorem wmem_writes_memory_only (s : CPU) (a b c : Nat)
    (h : registerOrLiteral s a < 32768) :
    ∃ s', opWMEM s a b c = .ok 3 s' ∧
      s'.memory (registerOrLiteral s a) = registerOrLiteral s b ∧
      (∀ i, i ≠ registerOrLiteral s a → s'.memory i = s.memory i) ∧
      s'.registers = s.registers ∧ s'.stack = s.stack ∧ s'.pc = s.pc ∧
      s'.halted = s.halted := by
  have hm : registerOrLiteral s a < memSize := by rw [memSize_eq]; exact h
  obtain ⟨t, htdef⟩ : ∃ t, t = registerOrLiteral s a := ⟨_, rfl⟩
  obtain ⟨v, hvdef⟩ : ∃ v, v = registerOrLiteral s b := ⟨_, rfl⟩
  have e : opWMEM s a b c =
      .ok 3 { s with memory := fun i => if i = t then v else s.memory i } := by
    simp only [opWMEM, hm, if_true, advance, instruction.WMEM, instruction.ArgCount,
      htdef, hvdef]
  rw [← htdef, ← hvdef]
  refine ⟨_, e, by simp, ?_, rfl, rfl, rfl, rfl⟩
  intro i hi
  simp [hi]

/-- Witness for C13: `WMEM r0, r1` with register 0 holding 100 and register 1
holding 9 writes 9 to memory cell 100 and leaves register 0 at 100. -/
theorem wmem_writes_memory_only_witness :
    ∃ s', opWMEM wmemRegs 32768 32769 0 = .ok 3 s' ∧ s'.memory 100 = 9 ∧
      s'.registers 0 = 100 := by
  obtain ⟨s', e, hm, _, hr, _⟩ := wmem_writes_memory_only wmemRegs 32768 32769 0 (by decide)
  refine ⟨s', e, ?_, ?_⟩
  · have h1 : registerOrLiteral wmemRegs 32768 = 100 := by decide
    have h2 : registerOrLiteral wmemRegs 32769 = 9 := by decide
    rw [h1, h2] at hm
    exact hm
  · rw [hr]
    decide

/-! ## The operand-count table and the dispatch table -/

/-- C18 (code defect): ArgCount agrees with the documented operand counts for
the 21 opcodes other than RET and panics (`none`) for every value above 21, but
for RET, documented as accepting no arguments, its table holds 1. -/
theorem ArgCount_RET_is_one :
    instruction.ArgCount instruction.RET = some 1 ∧
    instruction.ArgCount instruction.RET ≠ some 0 ∧
    instruction.ArgCount instruction.HALT = some 0 ∧
    instruction.ArgCount instruction.SET = some 2 ∧
    instruction.ArgCount instruction.PUSH = some 1 ∧
    instruction.ArgCount instruction.POP = some 1 ∧
    instruction.ArgCount instruction.EQ = some 3 ∧
    instruction.ArgCount instruction.GT = some 3 ∧
    instruction.ArgCount instruction.JMP = some 1 ∧
    instruction.ArgCount instruction.JT = some 2 ∧
    instruction.ArgCount instruction.JF = some 2 ∧
    instruction.ArgCount instruction.ADD = some 3 ∧
    instruction.ArgCount instruction.MULT = some 3 ∧
    instruction.ArgCount instruction.MOD = some 3 ∧
    instruction.ArgCount instruction.AND = some 3 ∧
    instruction.ArgCount instruction.OR = some 3 ∧
    instruction.ArgCount instruction.NOT = some 2 ∧
    instruction.ArgCount instruction.RMEM = some 2 ∧
    instruction.ArgCount instruction.WMEM = some 2 ∧
    instruction.ArgCount instruction.CALL = some 1 ∧
    instruction.ArgCount instruction.OUT = some 1 ∧
    instruction.ArgCount instruction.IN = some 1 ∧
    instruction.ArgCount instruction.NOOP = some 0 ∧
    (∀ n, 21 < n → instruction.ArgCount n = none) := by
  refine ⟨rfl, by decide, rfl, rfl, rfl, rfl, rfl, rfl, rfl, rfl, rfl, rfl, rfl, rfl, rfl,
    rfl, rfl, rfl, rfl, rfl, rfl, rfl, rfl, ?_⟩
  intro n hn
  unfold instruction.ArgCount
  split <;> first | omega | rfl

theorem microcode_isSome_iff (ev : Rendezvous) (op : Nat) :
    (microcode ev op).isSome = true ↔ op ≤ 21 := by
  constructor
  · intro h
    by_contra hlt
    have hn : microcode ev op = none := by
      unfold microcode
      split <;> first | omega | rfl
    rw [hn] at h
    cases h
  · intro h
    interval_cases op <;> rfl

theorem microcode_none (ev : Rendezvous) (op : Nat) (h : 21 < op) :
    microcode ev op = none := by
  cases hm : microcode ev op with
  | none => rfl
  | some impl =>
    have := (microcode_isSome_iff ev op).1 (by rw [hm]; rfl)
    omega

/-- Inversion of the handler tail "store, then return `1 + ArgCount`": a normal
return carries the delta `1 + n` and the old `pc`; a panic can only be the
bounds check of the memory store. -/
theorem store_inv (s : CPU) (a v instr n : Nat) (hn : instruction.ArgCount instr = some n) :
    (∀ d s1, ((write s a v).bind fun _ cpu1 => advance instr cpu1) = .ok d s1 →
      d = (1 + n) % 65536 ∧ s1.pc = s.pc) ∧
    (∀ f s1, ((write s a v).bind fun _ cpu1 => advance instr cpu1) = .fault f s1 →
      f = .indexOutOfRange) := by
  unfold write
  split
  · simp only [Result.bind, advance, hn]
    refine ⟨?_, ?_⟩
    · intro d s1 h
      cases h
      exact ⟨rfl, rfl⟩
    · intro f s1 h
      cases h
  · split
    · simp only [Result.bind, advance, hn]
      refine ⟨?_, ?_⟩
      · intro d s1 h
        cases h
        exact ⟨rfl, rfl⟩
      · intro f s1 h
        cases h
    · simp only [Result.bind]
      refine ⟨?_, ?_⟩
      · intro d s1 h
        cases h
      · intro f s1 h
        cases h
        rfl

theorem popstack_inv (s : CPU) :
    (∀ v s1, popstack s = .ok v s1 → s1.pc = s.pc ∧ s.stack ≠ []) ∧
    (∀ f s1, popstack s = .fault f s1 → f = .stackUnderflow) := by
  unfold popstack
  simp only
  split
  · refine ⟨?_, ?_⟩
    · intro v s1 h
      cases h
    · intro f s1 h
      cases h
      rfl
  · rename_i hneg
    refine ⟨?_, ?_⟩
    · intro v s1 h
      cases h
      refine ⟨rfl, ?_⟩
      intro he
      rw [he] at hneg
      simp at hneg
    · intro f s1 h
      cases h

theorem popstack_nonempty (s : CPU) (h : s.stack ≠ []) :
    ∃ v, popstack s = .ok v { s with stack := s.stack.dropLast } := by
  have hs : s.stack = s.stack.dropLast ++ [s.stack.getLast h] :=
    (List.dropLast_append_getLast h).symm
  exact ⟨_, popstack_push s _ _ hs⟩

/-- No handler of the table panics with "unknown opcode": the panics a handler
can raise are those of the stack, the memory bounds check, the division and
the two channels. -/
theorem handler_fault_known (ev : Rendezvous) (op : Nat)
    (impl : CPU → Nat → Nat → Nat → Result Nat) (hm : microcode ev op = some impl)
    (s : CPU) (a b c : Nat) (f : Fault) (s1 : CPU) (h : impl s a b c = .fault f s1) :
    ∀ k, f ≠ .unknownOpcode k := by
  have hop : op ≤ 21 := (microcode_isSome_iff ev op).1 (by rw [hm]; rfl)
  have hidx : f = .indexOutOfRange → ∀ k, f ≠ .unknownOpcode k := by
    intro e k; rw [e]; exact fun hh => by cases hh
  have hund : f = .stackUnderflow → ∀ k, f ≠ .unknownOpcode k := by
    intro e k; rw [e]; exact fun hh => by cases hh
  interval_cases op <;> (injection hm with hm; subst hm)
  · cases h
  · exact hidx ((store_inv s a _ instruction.SET 2 rfl).2 f s1 h)
  · cases h
  · unfold opPOP at h
    cases hp : popstack s with
    | ok v c1 =>
      rw [hp] at h
      exact hidx ((store_inv c1 a v instruction.POP 1 rfl).2 f s1 h)
    | fault g c1 =>
      rw [hp] at h
      cases h
      exact hund ((popstack_inv s).2 _ _ hp)
  · exact hidx ((store_inv s a _ instruction.EQ 3 rfl).2 f s1 h)
  · exact hidx ((store_inv s a _ instruction.GT 3 rfl).2 f s1 h)
  · cases h
  · unfold opJT at h
    split at h <;> cases h
  · unfold opJF at h
    split at h <;> cases h
  · exact hidx ((store_inv s a _ instruction.ADD 3 rfl).2 f s1 h)
  · exact hidx ((store_inv s a _ instruction.MULT 3 rfl).2 f s1 h)
  · unfold opMOD at h
    split at h
    · cases h
      exact fun k hh => by cases hh
    · exact hidx ((store_inv s a _ instruction.MOD 3 rfl).2 f s1 h)
  · exact hidx ((store_inv s a _ instruction.AND 3 rfl).2 f s1 h)
  · exact hidx ((store_inv s a _ instruction.OR 3 rfl).2 f s1 h)
  · exact hidx ((store_inv s a _ instruction.NOT 2 rfl).2 f s1 h)
  · unfold opRMEM at h
    simp only at h
    split at h
    · exact hidx ((store_inv s a _ instruction.RMEM 2 rfl).2 f s1 h)
    · cases h
      exact fun k hh => by cases hh
  · unfold opWMEM at h
    simp only at h
    split at h
    · cases h
    · cases h
      exact fun k hh => by cases hh
  · cases h
  · unfold opRET at h
    split at h
    · cases h
    · cases hp : popstack s with
      | ok v c1 =>
        rw [hp] at h
        cases h
      | fault g c1 =>
        rw [hp] at h
        cases h
        exact hund ((popstack_inv s).2 _ _ hp)
  · unfold opOUT at h
    cases ev with
    | completed v =>
      simp only at h
      split at h
      · cases h
        exact fun k hh => by cases hh
      · cases h
    | cancelled => cases h
    | timedOut =>
      cases h
      exact fun k hh => by cases hh
  · unfold opIN at h
    cases ev with
    | completed v =>
      exact hidx ((store_inv s a _ instruction.IN 1 rfl).2 f s1 h)
    | cancelled => cases h
    | timedOut =>
      cases h
      exact fun k hh => by cases hh
  · cases h

/-- C15: with `pc <= 32764`, Step panics with "unknown opcode" exactly when the
word at `pc` is not one of the values 0..21, which are exactly the keys of the
dispatch table; the panic names that word and leaves the machine as it was. -/
theorem unknown_opcode_iff (ev : Rendezvous) (s : CPU) (hpc : s.pc ≤ 32764) :
    ((∃ k s', Step ev s = .fault (.unknownOpcode k) s') ↔ 21 < s.memory s.pc) ∧
    (21 < s.memory s.pc → Step ev s = .fault (.unknownOpcode (s.memory s.pc)) s) ∧
    (∀ op, (microcode ev op).isSome = true ↔ op ≤ 21) := by
  have hbad : 21 < s.memory s.pc →
      Step ev s = .fault (.unknownOpcode (s.memory s.pc)) s := by
    intro h
    have h0 : s.pc < memSize := by rw [memSize_eq]; omega
    unfold Step
    simp only [h0, if_true, microcode_none ev _ h]
  refine ⟨⟨?_, fun h => ⟨_, _, hbad h⟩⟩, hbad, microcode_isSome_iff ev⟩
  rintro ⟨k, s', hf⟩
  by_contra hle
  have hop : s.memory s.pc ≤ 21 := by omega
  cases hm : microcode ev (s.memory s.pc) with
  | none =>
    have := (microcode_isSome_iff ev (s.memory s.pc)).2 hop
    rw [hm] at this
    cases this
  | some impl =>
    rw [Step_of_handler ev s impl hpc hm] at hf
    cases hr : impl s (s.memory (s.pc + 1)) (s.memory (s.pc + 2)) (s.memory (s.pc + 3)) with
    | ok d c1 =>
      rw [hr] at hf
      cases hf
    | fault g c1 =>
      rw [hr] at hf
      cases hf
      exact handler_fault_known ev _ impl hm s _ _ _ _ _ hr k rfl

/-- Witness for C15: the word 22 at address 0 is an unknown opcode, the word 1
(SET) is not. -/
theorem unknown_opcode_iff_witness :
    Step .cancelled badOpProg = .fault (.unknownOpcode 22) badOpProg ∧
    ¬ (∃ k s', Step .cancelled setProg = .fault (.unknownOpcode k) s') := by
  refine ⟨(unknown_opcode_iff .cancelled badOpProg (by decide)).2.1 (by decide), ?_⟩
  intro h
  have := (unknown_opcode_iff .cancelled setProg (by decide)).1.1 h
  revert this
  decide

/-- A successful Step had `pc <= 32764`, found a handler, and the handler
returned normally; the new machine is the handler's with the delta added to
`pc` in 16-bit arithmetic. -/
theorem Step_ok_inv (ev : Rendezvous) (s s' : CPU) (h : Step ev s = .ok () s') :
    s.pc ≤ 32764 ∧ ∃ impl d s1, microcode ev (s.memory s.pc) = some impl ∧
      impl s (s.memory (s.pc + 1)) (s.memory (s.pc + 2)) (s.memory (s.pc + 3)) = .ok d s1 ∧
      s' = { s1 with pc := (s1.pc + d) % 65536 } := by
  have hpc : s.pc ≤ 32764 := by
    by_contra hgt
    by_cases h0 : s.pc < memSize
    · have hb : ¬ ((s.pc + 1) % 65536 < memSize ∧ (s.pc + 2) % 65536 < memSize ∧
          (s.pc + 3) % 65536 < memSize) := by
        rw [memSize_eq] at h0 ⊢
        omega
      unfold Step at h
      simp only [h0, if_true, hb, if_false] at h
      split at h <;> cases h
    · unfold Step at h
      simp only [h0, if_false] at h
      cases h
  refine ⟨hpc, ?_⟩
  cases hm : microcode ev (s.memory s.pc) with
  | none =>
    have h0 : s.pc < memSize := by rw [memSize_eq]; omega
    unfold Step at h
    simp only [h0, if_true, hm] at h
    cases h
  | some impl =>
    rw [Step_of_handler ev s impl hpc hm] at h
    cases hr : impl s (s.memory (s.pc + 1)) (s.memory (s.pc + 2)) (s.memory (s.pc + 3)) with
    | ok d c1 =>
      rw [hr] at h
      simp only [Result.bind] at h
      cases h
      exact ⟨impl, d, c1, rfl, hr, rfl⟩
    | fault g c1 =>
      rw [hr] at h
      cases h

/-! ## The program counter after a Step -/

/-- A handler that does not assign `pc` returns, when it returns normally, the
delta `1 + ArgCount(op)` and leaves `pc` alone. This covers the fourteen
store and stack instructions and NOOP, OUT and IN when the channel operation
completed, and JT/JF when the branch is not taken. -/
theorem handler_ok_delta (ev : Rendezvous) (op : Nat)
    (impl : CPU → Nat → Nat → Nat → Result Nat) (hm : microcode ev op = some impl)
    (s : CPU) (a b c d : Nat) (s1 : CPU) (hr : impl s a b c = .ok d s1)
    (hcond : op ∈ [instruction.SET, instruction.PUSH, instruction.POP, instruction.EQ,
        instruction.GT, instruction.ADD, instruction.MULT, instruction.MOD,
        instruction.AND, instruction.OR, instruction.NOT, instruction.RMEM,
        instruction.WMEM, instruction.NOOP] ∨
      ((op = instruction.OUT ∨ op = instruction.IN) ∧ ∃ v, ev = .completed v) ∨
      (op = instruction.JT ∧ registerOrLiteral s a = 0) ∨
      (op = instruction.JF ∧ registerOrLiteral s a ≠ 0)) :
    ∃ n, instruction.ArgCount op = some n ∧ n ≤ 3 ∧ d = 1 + n ∧ s1.pc = s.pc := by
  have hop : op ≤ 21 := (microcode_isSome_iff ev op).1 (by rw [hm]; rfl)
  have hst : ∀ (v instr n : Nat), instruction.ArgCount instr = some n → n ≤ 3 →
      ((write s a v).bind fun _ cpu1 => advance instr cpu1) = .ok d s1 →
      d = 1 + n ∧ s1.pc = s.pc := by
    intro v instr n hn hn3 h
    have := (store_inv s a v instr n hn).1 d s1 h
    refine ⟨?_, this.2⟩
    rw [this.1]
    omega
  simp only [instruction.SET, instruction.PUSH, instruction.POP, instruction.EQ,
    instruction.GT, instruction.ADD, instruction.MULT, instruction.MOD, instruction.AND,
    instruction.OR, instruction.NOT, instruction.RMEM, instruction.WMEM, instruction.NOOP,
    instruction.OUT, instruction.IN, instruction.JT, instruction.JF] at hcond
  interval_cases op <;> (injection hm with hm; subst hm)
  · simp at hcond
  · obtain ⟨h1, h2⟩ := hst _ instruction.SET 2 rfl (by decide) hr
    exact ⟨2, rfl, by decide, h1, h2⟩
  · cases hr
    exact ⟨1, rfl, by decide, rfl, rfl⟩
  · unfold opPOP at hr
    cases hp : popstack s with
    | ok v c1 =>
      rw [hp] at hr
      have hq := (store_inv c1 a v instruction.POP 1 rfl).1 d s1 hr
      exact ⟨1, rfl, by decide, hq.1, hq.2.trans ((popstack_inv s).1 _ _ hp).1⟩
    | fault g c1 =>
      rw [hp] at hr
      cases hr
  · obtain ⟨h1, h2⟩ := hst _ instruction.EQ 3 rfl (by decide) hr
    exact ⟨3, rfl, by decide, h1, h2⟩
  · obtain ⟨h1, h2⟩ := hst _ instruction.GT 3 rfl (by decide) hr
    exact ⟨3, rfl, by decide, h1, h2⟩
  · simp at hcond
  · have hz : registerOrLiteral s a = 0 := by simpa using hcond
    simp only [opJT, hz, ne_eq, not_true_eq_false, if_false] at hr
    cases hr
    exact ⟨2, rfl, by decide, rfl, rfl⟩
  · have hz : registerOrLiteral s a ≠ 0 := by simpa using hcond
    simp only [opJF, hz, if_false] at hr
    cases hr
    exact ⟨2, rfl, by decide, rfl, rfl⟩
  · obtain ⟨h1, h2⟩ := hst _ instruction.ADD 3 rfl (by decide) hr
    exact ⟨3, rfl, by decide, h1, h2⟩
  · obtain ⟨h1, h2⟩ := hst _ instruction.MULT 3 rfl (by decide) hr
    exact ⟨3, rfl, by decide, h1, h2⟩
  · unfold opMOD at hr
    split at hr
    · cases hr
    · obtain ⟨h1, h2⟩ := hst _ instruction.MOD 3 rfl (by decide) hr
      exact ⟨3, rfl, by decide, h1, h2⟩
  · obtain ⟨h1, h2⟩ := hst _ instruction.AND 3 rfl (by decide) hr
    exact ⟨3, rfl, by decide, h1, h2⟩
  · obtain ⟨h1, h2⟩ := hst _ instruction.OR 3 rfl (by decide) hr
    exact ⟨3, rfl, by decide, h1, h2⟩
  · obtain ⟨h1, h2⟩ := hst _ instruction.NOT 2 rfl (by decide) hr
    exact ⟨2, rfl, by decide, h1, h2⟩
  · unfold opRMEM at hr
    simp only at hr
    split at hr
    · obtain ⟨h1, h2⟩ := hst _ instruction.RMEM 2 rfl (by decide) hr
      exact ⟨2, rfl, by decide, h1, h2⟩
    · cases hr
  · unfold opWMEM at hr
    simp only at hr
    split at hr
    · cases hr
      exact ⟨2, rfl, by decide, rfl, rfl⟩
    · cases hr
  · simp at hcond
  · simp at hcond
  · obtain ⟨v, hv⟩ : ∃ v, ev = .completed v := by simpa using hcond
    subst hv
    unfold opOUT at hr
    simp only at hr
    split at hr
    · cases hr
    · cases hr
      exact ⟨1, rfl, by decide, rfl, rfl⟩
  · obtain ⟨v, hv⟩ : ∃ v, ev = .completed v := by simpa using hcond
    subst hv
    obtain ⟨h1, h2⟩ := hst _ instruction.IN 1 rfl (by decide) hr
    exact ⟨1, rfl, by decide, h1, h2⟩
  · cases hr
    exact ⟨0, rfl, by decide, rfl, rfl⟩

/-- C20: after a successful Step of an instruction that does not assign `pc`
(SET, PUSH, POP, EQ, GT, ADD, MULT, MOD, AND, OR, NOT, RMEM, WMEM, NOOP, an OUT
or IN whose channel operation completed, a JT or JF whose branch is not taken)
the new `pc` is the old `pc` plus `1 + ArgCount(op)`, the length of the
instruction in words; the sum does not wrap. The handlers of HALT, JMP, CALL
and RET, and of JT and JF when the branch is taken, return delta 0. -/
theorem step_pc_advance (ev : Rendezvous) (s s' : CPU) (h : Step ev s = .ok () s') :
    ((s.memory s.pc ∈ [instruction.SET, instruction.PUSH, instruction.POP, instruction.EQ,
        instruction.GT, instruction.ADD, instruction.MULT, instruction.MOD,
        instruction.AND, instruction.OR, instruction.NOT, instruction.RMEM,
        instruction.WMEM, instruction.NOOP] ∨
      ((s.memory s.pc = instruction.OUT ∨ s.memory s.pc = instruction.IN) ∧
        ∃ v, ev = .completed v) ∨
      (s.memory s.pc = instruction.JT ∧ registerOrLiteral s (s.memory (s.pc + 1)) = 0) ∨
      (s.memory s.pc = instruction.JF ∧ registerOrLiteral s (s.memory (s.pc + 1)) ≠ 0)) →
      ∃ n, instruction.ArgCount (s.memory s.pc) = some n ∧
        s'.pc = (s.pc + (1 + n)) % 65536 ∧ s'.pc = s.pc + (1 + n)) ∧
    (∀ t a b c, (∃ t1, opHALT t a b c = .ok 0 t1) ∧ (∃ t1, opJMP t a b c = .ok 0 t1) ∧
      (∃ t1, opCALL t a b c = .ok 0 t1) ∧ (∃ t1, opRET t a b c = .ok 0 t1) ∧
      (registerOrLiteral t a ≠ 0 → ∃ t1, opJT t a b c = .ok 0 t1) ∧
      (registerOrLiteral t a = 0 → ∃ t1, opJF t a b c = .ok 0 t1)) := by
  refine ⟨?_, ?_⟩
  · intro hcond
    obtain ⟨hpc, impl, d, s1, hm, hr, hs'⟩ := Step_ok_inv ev s s' h
    obtain ⟨n, hn, hn3, hd, hp⟩ := handler_ok_delta ev _ impl hm s _ _ _ d s1 hr hcond
    have e : s'.pc = (s.pc + (1 + n)) % 65536 := by
      rw [hs']
      show (s1.pc + d) % 65536 = _
      rw [hp, hd]
    exact ⟨n, hn, e, by rw [e]; omega⟩
  · intro t a b c
    refine ⟨⟨_, rfl⟩, ⟨_, rfl⟩, ⟨_, rfl⟩, ?_, ?_, ?_⟩
    · by_cases he : t.stack = []
      · exact ⟨shutdown t, by simp [opRET, he]⟩
      · obtain ⟨v, hv⟩ := popstack_nonempty t he
        have hl : ¬ (t.stack.length = 0) := by
          intro h0
          exact he (List.length_eq_zero.1 h0)
        exact ⟨{ t with stack := t.stack.dropLast, pc := v }, by
          simp only [opRET, hl, if_false, hv, Result.bind]⟩
    · intro hne
      exact ⟨{ t with pc := registerOrLiteral t b }, by
        simp only [opJT, hne, ne_eq, not_false_eq_true, if_true]⟩
    · intro hz
      exact ⟨{ t with pc := registerOrLiteral t b }, by simp only [opJF, hz, if_true]⟩

/-- Witness for C20: `SET r0, 5` at address 0 is three words long and the Step
ends with `pc = 3`. -/
theorem step_pc_advance_witness :
    ∃ s', Step .cancelled setProg = .ok () s' ∧ s'.pc = setProg.pc + (1 + 2) := by
  have hs : Step .cancelled setProg = .ok ()
      { setProg with registers := fun r => if r = 0 then 5 else 0, pc := 3 } := rfl
  obtain ⟨n, hn, _, hp⟩ := (step_pc_advance .cancelled setProg _ hs).1 (Or.inl (by decide))
  have h2 : n = 2 := by
    have : instruction.ArgCount (setProg.memory setProg.pc) = some 2 := rfl
    rw [this] at hn
    exact (Option.some.inj hn).symm
  subst h2
  exact ⟨_, hs, hp⟩

/-! ## The loader -/

theorem word_of_bytes (lo hi : Nat) (h : lo < 256) : lo ||| (hi <<< 8) = lo + 256 * hi := by
  rw [Nat.shiftLeft_eq, Nat.or_comm, Nat.mul_comm hi, ← Nat.mul_add_lt_is_or (i := 8) h hi]
  omega

/-- The loading loop on `2n` or `2n + 1` bytes, started with room for `n` words:
it stores the `n` little-endian words at `pc, pc + 1, ...`, touches nothing
else, and ends with `io.EOF` on an even length and `io.ErrUnexpectedEOF` on an
odd one. -/
theorem loadWords_spec (n : Nat) : ∀ (c : CPU) (bytes : List Nat),
    (bytes.length = 2 * n ∨ bytes.length = 2 * n + 1) → c.pc + n ≤ 32768 →
    ∃ c', loadWords c bytes =
        .ok (if bytes.length % 2 = 0 then .eof else .unexpectedEOF) c' ∧
      c'.pc = c.pc + n ∧
      (∀ i, i < n → c'.memory (c.pc + i) =
        bytes.getD (2 * i) 0 ||| (bytes.getD (2 * i + 1) 0 <<< 8)) ∧
      (∀ j, (j < c.pc ∨ c.pc + n ≤ j) → c'.memory j = c.memory j) ∧
      c'.registers = c.registers ∧ c'.stack = c.stack ∧ c'.halted = c.halted ∧
      c'.output = c.output ∧ c'.outClosed = c.outClosed ∧ c'.cancelled = c.cancelled := by
  induction n with
  | zero =>
    intro c bytes hlen _
    match bytes, hlen with
    | [], _ =>
      exact ⟨c, rfl, rfl, fun i hi => by omega, fun _ _ => rfl, rfl, rfl, rfl, rfl, rfl, rfl⟩
    | [b], _ =>
      exact ⟨c, rfl, rfl, fun i hi => by omega, fun _ _ => rfl, rfl, rfl, rfl, rfl, rfl, rfl⟩
    | _ :: _ :: _, h => simp at h
  | succ n ih =>
    intro c bytes hlen hroom
    match bytes, hlen with
    | [], h => simp at h
    | [b], h => simp at h; omega
    | lo :: hi :: rest, h =>
      have hrest : rest.length = 2 * n ∨ rest.length = 2 * n + 1 := by
        simp only [List.length_cons] at h
        omega
      have hpc : c.pc < memSize := by rw [memSize_eq]; omega
      have hinc : (c.pc + 1) % 65536 = c.pc + 1 := by omega
      obtain ⟨c', hl, hp, hm, hf, hr, hs, hh, ho, hoc, hca⟩ :=
        ih { c with memory := fun i => if i = c.pc then lo ||| (hi <<< 8) else c.memory i,
                    pc := c.pc + 1 } rest hrest (by show c.pc + 1 + n ≤ 32768; omega)
      have hpar : (lo :: hi :: rest).length % 2 = rest.length % 2 := by
        simp only [List.length_cons]
        omega
      refine ⟨c', ?_, ?_, ?_, ?_, hr, hs, hh, ho, hoc, hca⟩
      · rw [hpar, ← hl]
        simp only [loadWords, hpc, if_true, hinc]
      · rw [hp]
        show c.pc + 1 + n = c.pc + (n + 1)
        omega
      · intro i hi
        cases i with
        | zero =>
          have := hf c.pc (Or.inl (by show c.pc < c.pc + 1; omega))
          rw [Nat.add_zero, this]
          simp
        | succ k =>
          have := hm k (by omega)
          have e1 : c.pc + (k + 1) = c.pc + 1 + k := by omega
          have e2 : 2 * (k + 1) = 2 * k + 2 := by omega
          have e3 : 2 * k + 2 + 1 = 2 * k + 1 + 2 := by omega
          rw [e1, this, e2, e3]
          simp [List.getD_cons_succ]
      · intro j hj
        have hj' : j < c.pc + 1 ∨ c.pc + 1 + n ≤ j := by omega
        have := hf j hj'
        rw [this]
        have hne : j ≠ c.pc := by omega
        simp [hne]

theorem getD_byte (bytes : List Nat) (hb : ∀ b ∈ bytes, b < 256) (i : Nat) :
    bytes.getD i 0 < 256 := by
  by_cases hi : i < bytes.length
  · rw [List.getD_eq_getElem bytes 0 hi]
    exact hb _ (List.getElem_mem hi)
  · rw [List.getD_eq_default bytes 0 (by omega)]
    decide

/-- C16: on a sequence of `2n` bytes with `n <= 32768`, NewCPUFrom returns a nil
error and a machine whose memory holds the little-endian words
`bytes[2i] + 256 * bytes[2i+1]` at the addresses `i < n` and 0 at every
address from `n` on, with all registers 0, an empty stack, the halted flag
clear and `pc = 0`. -/
theorem loader_loads_words (bytes : List Nat) (n : Nat) (hlen : bytes.length = 2 * n)
    (hn : n ≤ 32768) (hb : ∀ b ∈ bytes, b < 256) :
    ∃ c, NewCPUFrom bytes = .ok none c ∧
      (∀ i, i < n → c.memory i = bytes.getD (2 * i) 0 + 256 * bytes.getD (2 * i + 1) 0) ∧
      (∀ i, n ≤ i → c.memory i = 0) ∧ (∀ r, c.registers r = 0) ∧ c.stack = [] ∧
      c.halted = false ∧ c.pc = 0 := by
  obtain ⟨c', hl, _, hm, hf, hr, hs, hh, _⟩ :=
    loadWords_spec n blank bytes (Or.inl hlen) (by show 0 + n ≤ 32768; omega)
  have hpar : bytes.length % 2 = 0 := by omega
  rw [hpar] at hl
  refine ⟨{ c' with pc := 0 }, ?_, ?_, ?_, ?_, hs, hh, rfl⟩
  · simp only [NewCPUFrom, hl, Result.bind]
    rfl
  · intro i hi
    have := hm i hi
    have e0 : blank.pc + i = i := by show 0 + i = i; omega
    rw [e0] at this
    show c'.memory i = _
    rw [this, word_of_bytes _ _ (getD_byte bytes hb _)]
  · intro i hi
    have := hf i (Or.inr (by show 0 + n ≤ i; omega))
    show c'.memory i = 0
    rw [this]
    rfl
  · intro r
    show c'.registers r = 0
    rw [hr]
    rfl

/-- Witness for C16: the bytes `01 00 02 00 03 00` of TestNewCPUFrom load as the
words 1, 2, 3 at addresses 0, 1, 2, and address 3 stays 0. -/
theorem loader_loads_words_witness :
    ∃ c, NewCPUFrom [0x01, 0x00, 0x02, 0x00, 0x03, 0x00] = .ok none c ∧
      c.memory 0 = 1 ∧ c.memory 1 = 2 ∧ c.memory 2 = 3 ∧ c.memory 3 = 0 := by
  obtain ⟨c, hc, hm, hz, _⟩ :=
    loader_loads_words [0x01, 0x00, 0x02, 0x00, 0x03, 0x00] 3 rfl (by decide) (by decide)
  exact ⟨c, hc, hm 0 (by decide), hm 1 (by decide), hm 2 (by decide), hz 3 (by decide)⟩

/-- C17 fails as stated: the three-byte stream `15 00 15` ends inside its second
word; `binary.Read` reports `io.ErrUnexpectedEOF`, which is not `io.EOF`, and
NewCPUFrom returns that error. -/
theorem loader_odd_length_counterexample :
    [0x15, 0x00, 0x15].length < 65536 ∧
    (∃ c, NewCPUFrom [0x15, 0x00, 0x15] = .ok (some .unexpectedEOF) c) ∧
    ¬ (∃ c, NewCPUFrom [0x15, 0x00, 0x15] = .ok none c) := by
  refine ⟨by decide, ⟨_, rfl⟩, ?_⟩
  rintro ⟨c, hc⟩
  have hr : NewCPUFrom [0x15, 0x00, 0x15] =
      .ok (some .unexpectedEOF) { blank with memory := fun i => if i = 0 then 21 else 0 } :=
    rfl
  rw [hr] at hc
  cases hc

/-- C17 (amended): for a byte stream shorter than 65536 bytes, NewCPUFrom
returns a nil error when the length is even (the stream ends at a word
boundary, `io.EOF`), and the error `io.ErrUnexpectedEOF` when the length is odd;
in both cases it returns normally. -/
theorem loader_eof_by_parity (bytes : List Nat) (hlen : bytes.length < 65536) :
    (bytes.length % 2 = 0 → ∃ c, NewCPUFrom bytes = .ok none c) ∧
    (bytes.length % 2 = 1 → ∃ c, NewCPUFrom bytes = .ok (some .unexpectedEOF) c) := by
  obtain ⟨c', hl, _⟩ := loadWords_spec (bytes.length / 2) blank bytes (by omega)
    (by show 0 + bytes.length / 2 ≤ 32768; omega)
  refine ⟨?_, ?_⟩
  · intro hpar
    rw [hpar] at hl
    exact ⟨{ c' with pc := 0 }, by simp only [NewCPUFrom, hl, Result.bind]; rfl⟩
  · intro hpar
    rw [hpar] at hl
    exact ⟨{ c' with pc := 0 }, by simp only [NewCPUFrom, hl, Result.bind]; rfl⟩

/-- Witness for C17 (amended): the empty stream and a two-byte stream load
without error. -/
theorem loader_eof_by_parity_witness :
    (∃ c, NewCPUFrom [] = .ok none c) ∧ (∃ c, NewCPUFrom [0x15, 0x00] = .ok none c) :=
  ⟨(loader_eof_by_parity [] (by decide)).1 (by decide),
    (loader_eof_by_parity [0x15, 0x00] (by decide)).1 (by decide)⟩

/-! ## The example program, end to end -/

/-- C19: the twelve bytes of `ADD r0, r1, 4; OUT r0` load without error into a
machine with all registers 0; Run against a consumer that takes every rune
offered executes exactly three Steps (ADD, OUT, and the HALT that the zero word
at address 6 encodes) and returns with the delivered output `[4]`, register 0
equal to 4, `pc = 6` and the halted flag set; after two Steps the rune is
delivered but the machine has not yet halted. -/
theorem example_program_outputs_four :
    ∃ c c', NewCPUFrom exampleBytes = .ok none c ∧
      (∀ r, c.registers r = 0) ∧
      (∀ v k, Run (fun _ => .completed v) (k + 3) c = .returned c') ∧
      (∀ v, ∃ c2, Run (fun _ => .completed v) 2 c = .outOfFuel c2 ∧ c2.output = [4]) ∧
      c'.output = [4] ∧ c'.registers 0 = 4 ∧ c'.pc = 6 ∧
      c'.memory 6 = instruction.HALT ∧ c'.halted = true ∧ c'.outClosed = true := by
  obtain ⟨c, hc⟩ : ∃ c, c = (NewCPUFrom exampleBytes).cpu := ⟨_, rfl⟩
  obtain ⟨c1, hc1⟩ : ∃ c1, c1 = (Step (.completed 0) c).cpu := ⟨_, rfl⟩
  obtain ⟨c2, hc2⟩ : ∃ c2, c2 = (Step (.completed 0) c1).cpu := ⟨_, rfl⟩
  obtain ⟨c3, hc3⟩ : ∃ c3, c3 = (Step (.completed 0) c2).cpu := ⟨_, rfl⟩
  have h0 : NewCPUFrom exampleBytes = .ok none c := by rw [hc]; rfl
  have s1 : ∀ v, Step (.completed v) c = .ok () c1 := by
    intro v; rw [hc1, hc]; rfl
  have s2 : ∀ v, Step (.completed v) c1 = .ok () c2 := by
    intro v; rw [hc2, hc1, hc]; rfl
  have s3 : ∀ v, Step (.completed v) c2 = .ok () c3 := by
    intro v; rw [hc3, hc2, hc1, hc]; rfl
  have n0 : c.halted = false := by rw [hc]; rfl
  have n1 : c1.halted = false := by rw [hc1, hc]; rfl
  have n2 : c2.halted = false := by rw [hc2, hc1, hc]; rfl
  have n3 : c3.halted = true := by rw [hc3, hc2, hc1, hc]; rfl
  refine ⟨c, c3, h0, ?_, ?_, ?_, ?_, ?_, ?_, ?_, n3, ?_⟩
  · intro r; rw [hc]; rfl
  · intro v k
    show Run (fun _ => .completed v) (k + 2 + 1) c = .returned c3
    simp only [Run, n0, n1, n2, s1, s2, s3]
    exact Run_halted _ k c3 n3
  · intro v
    refine ⟨c2, ?_, ?_⟩
    · simp only [Run, n0, n1, n2, s1, s2]
      rfl
    · rw [hc2, hc1, hc]; rfl
  · rw [hc3, hc2, hc1, hc]; rfl
  · rw [hc3, hc2, hc1, hc]; rfl
  · rw [hc3, hc2, hc1, hc]; rfl
  · rw [hc3, hc2, hc1, hc]; rfl
  · rw [hc3, hc2, hc1, hc]; rfl

/-! ## The operand fetch at the end of memory -/

/-- C21: Step fetches the three words after `pc` before it runs the handler,
whatever the arity of the opcode. With `pc <= 32764` the three indices are
inside the memory array and Step runs the handler of a valid opcode on those
words. With `pc` in 32765..32767 and a valid opcode at `pc` the fetch indexes
past the array: Step panics with an index out of range and the machine is
unchanged; this holds for the operand-free HALT, RET and NOOP too, so a HALT in
the last cell leaves the halted flag as it was. -/
theorem operand_fetch_bounds (ev : Rendezvous) (s : CPU) :
    (s.pc ≤ 32764 →
      ((s.pc + 1) % 65536 < memSize ∧ (s.pc + 2) % 65536 < memSize ∧
        (s.pc + 3) % 65536 < memSize) ∧
      (∀ impl, microcode ev (s.memory s.pc) = some impl →
        Step ev s =
          (impl s (s.memory (s.pc + 1)) (s.memory (s.pc + 2)) (s.memory (s.pc + 3))).bind
            fun delta c1 => .ok () { c1 with pc := (c1.pc + delta) % 65536 })) ∧
    (32765 ≤ s.pc → s.pc ≤ 32767 → s.memory s.pc ≤ 21 →
      Step ev s = .fault .indexOutOfRange s ∧
      (Step ev s).cpu.halted = s.halted ∧
      (s.halted = false → ∀ env fuel, Run env (fuel + 1) s = .panicked .indexOutOfRange s)) ∧
    (32765 ≤ s.pc → s.pc ≤ 32767 →
      (s.memory s.pc = instruction.HALT ∨ s.memory s.pc = instruction.RET ∨
        s.memory s.pc = instruction.NOOP) →
      Step ev s = .fault .indexOutOfRange s) := by
  have hfault : ∀ ev1, 32765 ≤ s.pc → s.pc ≤ 32767 → s.memory s.pc ≤ 21 →
      Step ev1 s = .fault .indexOutOfRange s := by
    intro ev1 h1 h2 hop
    have h0 : s.pc < memSize := by rw [memSize_eq]; omega
    have hb : ¬ ((s.pc + 1) % 65536 < memSize ∧ (s.pc + 2) % 65536 < memSize ∧
        (s.pc + 3) % 65536 < memSize) := by
      rw [memSize_eq]
      omega
    cases hm : microcode ev1 (s.memory s.pc) with
    | none =>
      have := (microcode_isSome_iff ev1 (s.memory s.pc)).2 hop
      rw [hm] at this
      cases this
    | some impl =>
      unfold Step
      simp only [h0, if_true, hm, hb, if_false]
  refine ⟨?_, ?_, ?_⟩
  · intro hpc
    refine ⟨?_, fun impl hm => Step_of_handler ev s impl hpc hm⟩
    rw [memSize_eq]
    omega
  · intro h1 h2 hop
    have hf := hfault ev h1 h2 hop
    refine ⟨hf, by rw [hf]; rfl, ?_⟩
    intro hnh env fuel
    simp only [Run, hnh, hfault (env s) h1 h2 hop]
    rfl
  · intro h1 h2 hop
    apply hfault ev h1 h2
    rcases hop with h | h | h <;> rw [h] <;> decide

/-- Witness for C21: a HALT in cell 32767 and a NOOP in cell 32765 both make
Step panic with an index out of range; the machine with the HALT is not halted
afterwards, and Run ends in that panic. -/
theorem operand_fetch_bounds_witness :
    Step .cancelled haltLast = .fault .indexOutOfRange haltLast ∧
    (Step .cancelled haltLast).cpu.halted = false ∧
    Run (fun _ => .cancelled) 1 haltLast = .panicked .indexOutOfRange haltLast ∧
    Step .cancelled noopNearEnd = .fault .indexOutOfRange noopNearEnd := by
  have h := (operand_fetch_bounds .cancelled haltLast).2.1 (by decide) (by decide) (by decide)
  exact ⟨h.1, h.2.1, h.2.2 rfl (fun _ => .cancelled) 0,
    (operand_fetch_bounds .cancelled noopNearEnd).2.2 (by decide) (by decide)
      (Or.inr (Or.inr (by decide)))⟩

end synacor
